import Mathlib

/-!
Verification of the openpose-canvas pose editor core.

This file shallowly embeds the entity/scene graph of `src/unnamed/part_001`
(`Entity`, `Keypoint`, `Bone`, `Drawable`, `Scene`) and the revision manager of
`src/js/revision_manager.js` (the first document in that file, whose line
numbers the claims cite), and proves properties of the embedding.

Modelling conventions:
* JS numbers are embedded as `Rat` (the claims under study involve no
  float-rounding behaviour), strings as `String`, nullable values as `Option`.
* `crypto.randomUUID()` is embedded as a fresh-counter draw: a scene state
  carries `nextUuid`, and a freshly generated identifier is `nextUuid`
  (all previously existing identifiers are below it).
* JS objects used as string-keyed dictionaries are embedded as association
  lists with insertion order; the source comments assume names are unique per
  drawable ("We assume names are unique per drawable").
* The revision manager is modelled in its scene-only configuration
  (`canvasManager = null`, no pose layers).  All `canvasManager`-guarded and
  pose-layer-guarded branches of the cited code are skipped exactly as the
  source skips them when `canvasManager` is `null`.
-/

/-- A 2D point, the `{x, y}` objects of the source. -/
structure Pt where
  x : Rat
  y : Rat
deriving DecidableEq, Repr

/- ===================================================================
   Entity tree (src/unnamed/part_001, class Entity).
   Each node carries the attributes relevant to the claims under study:
   the `_stateChanged` dirty flag and the `_strokeColor` attribute.
   =================================================================== -/

/-- Per-entity attributes: `_stateChanged` (dirty flag) and `_strokeColor`. -/
structure EntAttrs where
  dirty : Bool
  strokeColor : Option String
deriving DecidableEq, Repr

/-- An entity together with its (insertion-ordered) `children` list. -/
inductive Ent : Type where
  | node : EntAttrs → List Ent → Ent
deriving Repr

/-- The attributes of an entity. -/
def Ent.attrs : Ent → EntAttrs
  | .node a _ => a

/-- The `children` list of an entity. -/
def Ent.childrenOf : Ent → List Ent
  | .node _ ch => ch

/-- Look up the entity at a child-index path from the given root. -/
def getAt? : List Nat → Ent → Option Ent
  | [], t => some t
  | i :: p, .node _ ch =>
    match ch[i]? with
    | some c => getAt? p c
    | none => none

/-- Rewrite the entity at a child-index path (identity on invalid paths),
modelling an in-place mutation of one entity inside the live tree. -/
def updateAt (f : Ent → Ent) : List Nat → Ent → Ent
  | [], t => f t
  | i :: p, .node a ch =>
    match ch[i]? with
    | some c => .node a (ch.set i (updateAt f p c))
    | none => .node a ch

/-- The own stroke colors of the strict ancestors of the node at a path,
nearest ancestor first (the chain `getStrokeColor` climbs via `this.parent`). -/
def ancChain : List Nat → Ent → List (Option String)
  | [], _ => []
  | i :: p, .node a ch =>
    match ch[i]? with
    | some c => ancChain p c ++ [a.strokeColor]
    | none => []

/-- `Entity.changeState(true)`: mark the touched entity dirty and recurse to
the parent unconditionally.  Viewed from the root this marks every node on
the path from the root down to the touched entity. -/
def markDirtyAlong : List Nat → Ent → Ent
  | [], .node a ch => .node { a with dirty := true } ch
  | i :: p, .node a ch =>
    match ch[i]? with
    | some c => .node { a with dirty := true } (ch.set i (markDirtyAlong p c))
    | none => .node { a with dirty := true } ch

/-- The dirty flag of the entity at a path (`false` on invalid paths). -/
def dirtyAt (p : List Nat) (t : Ent) : Bool :=
  match getAt? p t with
  | some e => e.attrs.dirty
  | none => false

mutual

/-- `Entity.setStrokeColor(color)`: store the color if it is non-null, then
(after updating the own shape, which stores nothing) recurse into every child
with `null`, which re-resolves the children without storing anything. -/
def setStrokeColorE : Ent → Option String → Ent
  | .node a ch, c =>
    .node
      { a with strokeColor := match c with | some v => some v | none => a.strokeColor }
      (setStrokeColorChildren ch)

/-- The `this.children.forEach(ch => ch.setStrokeColor(null))` loop. -/
def setStrokeColorChildren : List Ent → List Ent
  | [] => []
  | e :: es => setStrokeColorE e none :: setStrokeColorChildren es

end

/-- `Entity.getStrokeColor(color = null)` as a function of the own stored
color and the ancestor chain (nearest first): return the own color when it is
set, otherwise ask the parent; with no parent left, return what is there. -/
def getStrokeColorFrom : Option String → List (Option String) → Option String
  | some c, _ => some c
  | none, [] => none
  | none, a :: rest => getStrokeColorFrom a rest

/-- The resolved stroke color of the entity at a path inside a tree. -/
def resolveStrokeAt (p : List Nat) (t : Ent) : Option String :=
  match getAt? p t with
  | some e => getStrokeColorFrom e.attrs.strokeColor (ancChain p t)
  | none => none

/-- `entity.setStrokeColor(c)` with a non-null color, performed on the entity
at path `p` of the live tree. -/
def setStrokeColorAt (c : String) (p : List Nat) (t : Ent) : Ent :=
  updateAt (fun e => setStrokeColorE e (some c)) p t

/- ===================================================================
   Scene state-change locking (Entity.overStateChange, Scene.changeState).
   The shared lock cell `_stateChangeLock` of the scene subtree is a single
   counter; `Scene.changeState` fires the registered `onStateChanged`
   callback only when the counter is not positive.  `notifs` counts the
   callback invocations.
   =================================================================== -/

/-- The scene-shared mutable state: the shared `_stateChangeLock.value`
counter, the number of `onStateChanged` invocations so far (the model assumes
a callback is registered), and the entity tree rooted at the scene. -/
structure SceneSt where
  lock : Int
  notifs : Nat
  tree : Ent

/-- A mutation at path `p` reaching `Scene.changeState(true)`: the dirty flag
is set along the whole parent chain unconditionally, then the callback fires
iff the shared lock counter is not positive (`!this.isStateChangeLock`). -/
def sceneChangeState (s : SceneSt) (p : List Nat) : SceneSt :=
  { s with
    tree := markDirtyAlong p s.tree
    notifs := if s.lock > 0 then s.notifs else s.notifs + 1 }

/-- `lockStateChange()`. -/
def lockSt (s : SceneSt) : SceneSt := { s with lock := s.lock + 1 }

/-- `unlockStateChange()`. -/
def unlockSt (s : SceneSt) : SceneSt := { s with lock := s.lock - 1 }

/-- The body of `overStateChange`'s callable, abstracted as the list of
entities (paths) it mutates; every mutation calls `changeState(true)`. -/
def runMutations (s : SceneSt) (muts : List (List Nat)) : SceneSt :=
  muts.foldl sceneChangeState s

/-- `Entity.overStateChange(callable)` on an entity sharing the scene's lock
cell: lock, run the callable, unlock, then force one `changeState(true)`. -/
def overStateChange (s : SceneSt) (muts : List (List Nat)) (caller : List Nat) : SceneSt :=
  sceneChangeState (unlockSt (runMutations (lockSt s) muts)) caller

/- ===================================================================
   Keypoint positions and Bone.getPosition (src/unnamed/part_001).
   =================================================================== -/

/-- A keypoint: stable identity, optional position (`null` means
undetected/removed), visual radius, and its own color overrides. -/
structure KeypointM where
  uuid : Nat
  pos : Option Pt
  radius : Rat
  strokeColor : Option String
  fillColor : Option String
deriving DecidableEq, Repr

/-- `Keypoint.getPosition()`: a copy of `_position`, or `null`. -/
def keypointGetPosition (k : KeypointM) : Option Pt := k.pos

/-- The two endpoint keypoints a bone references (weak references). -/
structure BoneEnds where
  startKp : KeypointM
  endKp : KeypointM
deriving DecidableEq, Repr

/-- `Bone.getPosition()`: `null` when either endpoint has no position,
otherwise the midpoint of the two endpoint positions. -/
def boneGetPosition (b : BoneEnds) : Option Pt :=
  match keypointGetPosition b.startKp, keypointGetPosition b.endKp with
  | some s, some e => some ⟨(s.x + e.x) / 2, (s.y + e.y) / 2⟩
  | _, _ => none

/- ===================================================================
   Association-list helpers for JS objects / Maps used as dictionaries.
   Keys are unique in every dictionary the source builds; lookups return
   the first match and updates rewrite the first match.
   =================================================================== -/

/-- Dictionary lookup (`dict[k]`). -/
def getAssoc? {κ α : Type} [DecidableEq κ] (l : List (κ × α)) (k : κ) : Option α :=
  match l with
  | [] => none
  | (k', v) :: rest => if k' = k then some v else getAssoc? rest k

/-- In-place mutation of the entry at key `k` (no-op when absent). -/
def setAssocFirst {κ α : Type} [DecidableEq κ] (l : List (κ × α)) (k : κ) (f : α → α) :
    List (κ × α) :=
  match l with
  | [] => []
  | (k', v) :: rest => if k' = k then (k', f v) :: rest else (k', v) :: setAssocFirst rest k f

/-- `Map.set` / JS object assignment: replace the entry when the key exists,
append otherwise. -/
def mapSet {κ α : Type} [DecidableEq κ] (l : List (κ × α)) (k : κ) (v : α) : List (κ × α) :=
  if (l.map Prod.fst).contains k then setAssocFirst l k (fun _ => v) else l ++ [(k, v)]

/- ===================================================================
   Drawable.buildSkeleton (src/unnamed/part_001, lines 632-689).
   The skeleton data returned by `buildStructure` (template names, target
   positions, limb/bone groupings) is taken as input; `buildSkeleton`
   creates or updates keypoints and, only when no keypoint existed yet,
   constructs the Limb and Bone entities.
   =================================================================== -/

/-- A bone entry of the structure data: name plus its endpoint names. -/
structure BoneSpec where
  name : String
  startName : String
  endName : String
deriving DecidableEq, Repr

/-- A limb entry of the structure data. -/
structure LimbSpec where
  name : String
  bones : List BoneSpec
deriving DecidableEq, Repr

/-- The value returned by `buildStructure`: vertex names, their target
positions (same length as `names`), and the limb groupings. -/
structure SkelData where
  names : List String
  positions : List Pt
  limbs : List LimbSpec
deriving DecidableEq, Repr

/-- A constructed bone entity: name, endpoint keypoint names (weak
references), own stroke color, stored stroke width (`4` from the `Entity`
constructor unless overridden). -/
structure BoneM where
  name : String
  startName : String
  endName : String
  strokeColor : Option String
  strokeWidth : Rat
deriving DecidableEq, Repr

/-- A constructed limb entity with its bones. -/
structure LimbM where
  name : String
  bones : List BoneM
deriving DecidableEq, Repr

/-- The skeleton-bearing part of a `Drawable`: `keypointsDict` (name →
Keypoint, insertion-ordered), the `limbs` list, and the fresh-uuid counter. -/
structure SkDrawable where
  keypointsDict : List (String × KeypointM)
  limbs : List LimbM
  nextUuid : Nat
deriving DecidableEq, Repr

/-- The `['Face', 'LHand', 'RHand'].some(partName => name.startsWith(partName + '_'))`
test for reduced-visual-weight detail points. -/
def isDetailName (n : String) : Bool :=
  ["Face", "LHand", "RHand"].any (fun part => n.startsWith (part ++ "_"))

/-- One iteration of the `skeletonData.names.forEach` loop of `buildSkeleton`:
create the keypoint when its name is absent, otherwise update its position
in place (setting `skeletonExists`); then apply the detail-point styling. -/
def buildSkeletonKpStep (acc : SkDrawable × Bool) (nv : String × Pt) : SkDrawable × Bool :=
  let d := acc.1
  let skeletonExists := acc.2
  let name := nv.1
  let pos := nv.2
  let next :=
    match getAssoc? d.keypointsDict name with
    | none =>
      ({ d with
          keypointsDict := d.keypointsDict ++
            [(name, { uuid := d.nextUuid, pos := some pos, radius := 5,
                      strokeColor := none, fillColor := none })]
          nextUuid := d.nextUuid + 1 }, skeletonExists)
    | some _ =>
      ({ d with
          keypointsDict := setAssocFirst d.keypointsDict name
            (fun k => { k with pos := some pos }) }, true)
  let d2 := next.1
  if isDetailName name then
    ({ d2 with
        keypointsDict := setAssocFirst d2.keypointsDict name
          (fun k => { k with radius := 1, strokeColor := some "gray", fillColor := some "gray" }) },
      next.2)
  else next

/-- One iteration of the `skeletonData.limbs.forEach` loop: construct the
limb and, for each bone whose two endpoint keypoints exist, construct the
bone (detail bones get gray stroke and width 1). -/
def buildLimbsStep (d : SkDrawable) (ls : LimbSpec) : SkDrawable :=
  let bones := ls.bones.foldl
    (fun bs b =>
      match getAssoc? d.keypointsDict b.startName, getAssoc? d.keypointsDict b.endName with
      | some _, some _ =>
        bs ++ [{ name := b.name, startName := b.startName, endName := b.endName,
                 strokeColor := if isDetailName b.name then some "gray" else none,
                 strokeWidth := if isDetailName b.name then 1 else 4 }]
      | _, _ => bs) []
  { d with limbs := d.limbs ++ [{ name := ls.name, bones := bones }] }

/-- `Drawable.buildSkeleton` after `buildStructure` returned `sd`: run the
keypoint loop, then build limbs/bones only when no keypoint name existed
before (`skeletonExists` is false). -/
def buildSkeletonM (d : SkDrawable) (sd : SkelData) : SkDrawable :=
  let step := (sd.names.zip sd.positions).foldl buildSkeletonKpStep (d, false)
  if step.2 then step.1 else sd.limbs.foldl buildLimbsStep step.1

/- ===================================================================
   Entity.setStrokeWidth (src/unnamed/part_001, lines 254-262).
   =================================================================== -/

/-- A dynamically-typed JS attribute value (a Konva shape accepts both). -/
inductive JsVal where
  | str : String → JsVal
  | num : Rat → JsVal
deriving DecidableEq, Repr

/-- The attributes of a Konva shape touched by the width/color setters. -/
structure ShapeSt where
  fillAttr : Option JsVal
  strokeAttr : Option JsVal
  strokeWidthAttr : Option Rat
deriving DecidableEq, Repr

/-- One entity as `setStrokeWidth` sees it: stored `_strokeWidth` and the
optional visual shape. -/
structure WNode where
  strokeWidth : Option Rat
  shape : Option ShapeSt
deriving DecidableEq, Repr

/-- An entity with its direct children (the loop at line 261 only touches
direct children). -/
structure WEnt where
  self : WNode
  children : List WNode
deriving DecidableEq, Repr

/-- `Entity.getStrokeWidth(width = null)` as a function of the own stored
width and the ancestor chain of stored widths. -/
def getStrokeWidthFrom : Option Rat → List (Option Rat) → Option Rat
  | some w, _ => some w
  | none, [] => none
  | none, a :: rest => getStrokeWidthFrom a rest

/-- `Entity.setStrokeWidth(width)` exactly as the source has it: store a
non-null width; if a shape exists, call `this.shape.fill(this.getStrokeWidth())`
(writing the resolved width into the shape's *fill* attribute); then run
`this.children.forEach(ch => ch.getStrokeWidth(null))` — a side-effect-free
getter call, so the children are returned unchanged.  `anc` is the entity's
ancestor chain of stored widths used by the resolution. -/
def setStrokeWidthM (anc : List (Option Rat)) (e : WEnt) (w : Option Rat) : WEnt :=
  let own := match w with | some v => some v | none => e.self.strokeWidth
  let self1 : WNode := { e.self with strokeWidth := own }
  let self2 : WNode :=
    match self1.shape with
    | some sh =>
      { self1 with shape := some { sh with fillAttr := (getStrokeWidthFrom own anc).map JsVal.num } }
    | none => self1
  { self := self2, children := e.children }

/- ===================================================================
   Export-format validation
   (src/js/color-palette.js, SkeletonDataAccess.validatePersonFormatCompatibility
   and exportPersonAsOpenPoseJson).
   =================================================================== -/

/-- `skeletonData.names.filter(name => !person.keypointsDict[name])`: the
required keypoint names absent from the person's dictionary. -/
def missingKeypoints (kpNames : List String) (required : List String) : List String :=
  required.filter (fun n => ¬ kpNames.contains n)

/-- `validatePersonFormatCompatibility`: throw a descriptive error naming the
missing keypoints when any required keypoint is absent, else return `true`.
`currentFormat` is `person.format || 'UNKNOWN'`; `targetFormat` is
`skeletonData.format`; `kpNames` are the person's keypoint names; `required`
are the target skeleton's names. -/
def validatePFC (currentFormat : String) (kpNames : List String) (targetFormat : String)
    (required : List String) : Except String Bool :=
  let missing := missingKeypoints kpNames required
  if missing = [] then .ok true
  else if currentFormat = "BODY18" ∧ targetFormat = "BODY25" then
    .error ("Cannot export BODY18 pose (18 keypoints) to BODY25 format (25 keypoints). " ++
      "BODY25 requires additional foot/toe keypoints that are not present: " ++
      String.intercalate ", " missing ++ ". Use ControlNet Standard format instead.")
  else if currentFormat = "BODY25" ∧ targetFormat = "BODY18" then
    .error ("Exporting BODY25 pose (25 keypoints) to ControlNet format (18 keypoints) " ++
      "will lose foot/toe detail: " ++ String.intercalate ", " missing ++
      ". This is allowed but some pose precision will be lost.")
  else
    .error ("Format incompatibility: Current pose (" ++ currentFormat ++ ", " ++
      toString kpNames.length ++ " keypoints) cannot be converted to " ++ targetFormat ++
      " (" ++ toString required.length ++ " keypoints). Missing: " ++
      String.intercalate ", " missing)

/-- `exportPersonAsOpenPoseJson` for a target format whose skeleton data is
already loaded (`required` are its names; the loaded data's `format` field
equals the requested format).  The per-format JSON builders
(`createBODY18`, …) are abstracted as `create`; a thrown validation error is
caught and re-thrown wrapped, and no JSON value is produced on failure. -/
def exportPersonM {α : Type} (create : String → α) (personFormat : String)
    (kpNames : List String) (targetFormat : String) (required : List String) :
    Except String α :=
  match validatePFC personFormat kpNames targetFormat required with
  | .error e => .error ("Failed to generate OpenPose JSON data for " ++ targetFormat ++ ": " ++ e)
  | .ok _ =>
    if targetFormat = "BODY18" ∨ targetFormat = "BODY18COMFYUI" ∨ targetFormat = "BODY25" then
      .ok (create targetFormat)
    else
      .error ("Failed to generate OpenPose JSON data for " ++ targetFormat ++ ": " ++
        ("Unsupported format: " ++ targetFormat ++
          ". Supported formats: BODY18, BODY18COMFYUI, BODY25"))

/- ===================================================================
   RevisionManager (src/js/revision_manager.js, first document).
   Drawable-level state: the snapshot/diff engine only inspects the
   drawable's own attributes plus a name-keyed traversal of its
   descendants, so a drawable is embedded as its attributes together
   with the name-keyed flattened descendant states (names are unique
   per drawable).
   =================================================================== -/

/-- `drawable.constructor.name` / `state.type` as the reconstruction code
matches it (`'Person'`, `'DistortableImage'`, anything else). -/
inductive DType where
  | person
  | image
  | other
deriving DecidableEq, Repr

/-- An `originalBBox` value `{x, y, width, height}`. -/
structure BBox where
  x : Rat
  y : Rat
  width : Option Rat
  height : Option Rat
deriving DecidableEq, Repr

/-- The captured per-descendant state `{position, visible, strokeColor,
fillColor}`; equally the model of a live descendant entity, since these are
exactly the fields the revision manager reads and writes on it. -/
structure MChild where
  position : Option Pt
  visible : Bool
  strokeColor : Option String
  fillColor : Option String
deriving DecidableEq, Repr

/-- A live top-level drawable as the revision manager sees it. -/
structure MDrawable where
  uuid : Nat
  name : String
  dtype : DType
  visible : Bool
  alpha : Option Rat
  strokeColor : Option String
  fillColor : Option String
  layer : Option String
  dirty : Bool
  format : String
  imagePath : Option String
  bbox : BBox
  children : List (String × MChild)
deriving DecidableEq, Repr

/-- `getConstructionArgs`: name and `originalBBox`, plus `format` for a
Person and `imagePath` for a DistortableImage. -/
structure CArgs where
  name : String
  originalBBox : BBox
  format : Option String
  imagePath : Option String
deriving DecidableEq, Repr

/-- The captured drawable attributes `{visible, alpha, fillColor,
strokeColor, layer}`. -/
structure AttrsS where
  visible : Bool
  alpha : Option Rat
  fillColor : Option String
  strokeColor : Option String
  layer : Option String
deriving DecidableEq, Repr

/-- A snapshot entry: `captureDrawableState`'s result. -/
structure DState where
  stype : DType
  uuid : Nat
  cargs : CArgs
  attributes : AttrsS
  children : List (String × MChild)
deriving DecidableEq, Repr

/-- `captureDrawableState(drawable)`. -/
def captureDrawableState (d : MDrawable) : DState :=
  { stype := d.dtype
    uuid := d.uuid
    cargs :=
      { name := d.name, originalBBox := d.bbox
        format := if d.dtype = DType.person then some d.format else none
        imagePath := if d.dtype = DType.image then d.imagePath else none }
    attributes :=
      { visible := d.visible, alpha := d.alpha, fillColor := d.fillColor
        strokeColor := d.strokeColor, layer := d.layer }
    children := d.children }

/-- A `{from, to}` pair of one diff entry. -/
structure FromTo (α : Type) where
  fromV : α
  toV : α
deriving DecidableEq, Repr

/-- The attribute part of a `modify` diff (one optional `{from, to}` pair per
captured attribute key). -/
structure AttrDiff where
  visible : Option (FromTo Bool)
  alpha : Option (FromTo (Option Rat))
  fillColor : Option (FromTo (Option String))
  strokeColor : Option (FromTo (Option String))
  layer : Option (FromTo (Option String))
deriving DecidableEq, Repr

/-- The per-descendant part of a `modify` diff. -/
structure ChildDiff where
  position : Option (FromTo (Option Pt))
  visible : Option (FromTo Bool)
  strokeColor : Option (FromTo (Option String))
  fillColor : Option (FromTo (Option String))
deriving DecidableEq, Repr

/-- A `modify` diff. -/
structure DiffT where
  attributes : AttrDiff
  children : List (String × ChildDiff)
deriving DecidableEq, Repr

/-- One field comparison of `diffStates` (`JSON.stringify` equality is
structural equality on these values): a `{from, to}` pair when changed. -/
def mkFT {α : Type} [DecidableEq α] (o n : α) : Option (FromTo α) :=
  if o = n then none else some ⟨o, n⟩

/-- The child-comparison block of `diffStates` for one name present in both
states. -/
def diffChild (o n : MChild) : Option ChildDiff :=
  let cd : ChildDiff :=
    { position := mkFT o.position n.position
      visible := mkFT o.visible n.visible
      strokeColor := mkFT o.strokeColor n.strokeColor
      fillColor := mkFT o.fillColor n.fillColor }
  if cd.position = none ∧ cd.visible = none ∧ cd.strokeColor = none ∧ cd.fillColor = none
  then none else some cd

/-- The attribute-diff block of `diffStates`. -/
def diffAttrs (o n : AttrsS) : AttrDiff :=
  { visible := mkFT o.visible n.visible
    alpha := mkFT o.alpha n.alpha
    fillColor := mkFT o.fillColor n.fillColor
    strokeColor := mkFT o.strokeColor n.strokeColor
    layer := mkFT o.layer n.layer }

/-- The empty attribute diff. -/
def emptyAttrDiff : AttrDiff :=
  { visible := none, alpha := none, fillColor := none, strokeColor := none, layer := none }

/-- `diffStates(oldState, newState)`: attribute diff plus per-name child
diffs over the names of the new state also present in the old one; `null`
when nothing changed. -/
def diffStates (o n : DState) : Option DiffT :=
  let ad := diffAttrs o.attributes n.attributes
  let cds : List (String × ChildDiff) :=
    n.children.filterMap (fun e =>
      match getAssoc? o.children e.1 with
      | some oc => (diffChild oc e.2).map (fun cd => (e.1, cd))
      | none => none)
  if ad = emptyAttrDiff ∧ cds = [] then none else some { attributes := ad, children := cds }

/-- The direction of `applyDiff` (`mode = 'undo' | 'redo'`). -/
inductive DiffDir where
  | undo
  | redo
deriving DecidableEq, Repr

/-- `diff.x[dir]`. -/
def ftVal {α : Type} (ft : FromTo α) : DiffDir → α
  | .undo => ft.fromV
  | .redo => ft.toV

/-- The child block of `applyDiff` for one diffed name: `setPosition` /
`setVisible` store the direction's value; `_fillColor` / `_strokeColor` are
assigned directly (including `null`). -/
def applyChildDiff (cd : ChildDiff) (dir : DiffDir) (c : MChild) : MChild :=
  let c := match cd.position with | some ft => { c with position := ftVal ft dir } | none => c
  let c := match cd.visible with | some ft => { c with visible := ftVal ft dir } | none => c
  let c := match cd.fillColor with | some ft => { c with fillColor := ftVal ft dir } | none => c
  match cd.strokeColor with | some ft => { c with strokeColor := ftVal ft dir } | none => c

/-- `applyDiff(drawable, diff, mode)` with `canvasManager = null`: drawable
`visible` is stored via `setVisible`; drawable `strokeColor` / `fillColor`
go through `setStrokeColor` / `setFillColor`, which ignore `null`; the
`alpha` key has no handler, and the `layer` key is skipped because the layer
lookup needs the canvas manager.  Diffed children are mutated per name; a
child `setPosition` runs `changeState(true)`, marking the drawable dirty. -/
def applyDiffM (diff : DiffT) (dir : DiffDir) (d : MDrawable) : MDrawable :=
  let d := match diff.attributes.visible with
    | some ft => { d with visible := ftVal ft dir }
    | none => d
  let d := match diff.attributes.fillColor with
    | some ft => match ftVal ft dir with
      | some c => { d with fillColor := some c }
      | none => d
    | none => d
  let d := match diff.attributes.strokeColor with
    | some ft => match ftVal ft dir with
      | some c => { d with strokeColor := some c }
      | none => d
    | none => d
  let dirty := d.dirty ||
    diff.children.any (fun e => e.2.position.isSome && (getAssoc? d.children e.1).isSome)
  let ch := diff.children.foldl
    (fun ch e => setAssocFirst ch e.1 (applyChildDiff e.2 dir)) d.children
  { d with children := ch, dirty := dirty }

/-- `applyState(drawable, state)`: reapply the captured attributes (the color
setters ignore `null`; `setVisible` always stores) and the captured per-name
child fields (position and colors only when non-null, visibility always).
A child `setPosition` marks the drawable dirty via `changeState(true)`. -/
def applyStateM (st : DState) (d : MDrawable) : MDrawable :=
  let d := match st.attributes.strokeColor with
    | some c => { d with strokeColor := some c }
    | none => d
  let d := match st.attributes.fillColor with
    | some c => { d with fillColor := some c }
    | none => d
  let d := { d with visible := st.attributes.visible }
  let dirty := d.dirty ||
    st.children.any (fun e => e.2.position.isSome && (getAssoc? d.children e.1).isSome)
  let ch := st.children.foldl
    (fun ch e => setAssocFirst ch e.1 (fun c =>
      let c := match e.2.position with | some p => { c with position := some p } | none => c
      let c := { c with visible := e.2.visible }
      let c := match e.2.strokeColor with | some s => { c with strokeColor := some s } | none => c
      match e.2.fillColor with | some f => { c with fillColor := some f } | none => c)) d.children
  { d with children := ch, dirty := dirty }

/-- The scene as the revision manager sees it: the top-level drawables plus
the fresh-uuid counter (`crypto.randomUUID()` draws). -/
structure SceneM where
  drawables : List MDrawable
  nextUuid : Nat
deriving DecidableEq, Repr

/-- `Scene.COLORS`. -/
def sceneCOLORS : List String :=
  ["black", "blue", "green", "red", "purple", "orange", "cyan", "magenta", "brown"]

/-- The skeleton template instantiation performed by `Person.create` /
`DistortableImage.create` (an asynchronous external resource load): given the
format and the construction bounding box, the name-keyed descendant states of
the freshly built drawable. -/
def TemplateFn : Type := String → BBox → List (String × MChild)

/-- `scene.persons.length`. -/
def countPersons (sc : SceneM) : Nat :=
  (sc.drawables.filter (fun d => d.dtype = DType.person)).length

/-- `scene.images.length`. -/
def countImages (sc : SceneM) : Nat :=
  (sc.drawables.filter (fun d => d.dtype = DType.image)).length

/-- `Scene.addPerson(bbox, personData, {strokeColor, fillColor, format})`:
build a Person named `Person${n}` with a fresh uuid, pick the stroke color
from the palette when none is given, and append it to the scene. -/
def addPersonM (tpl : TemplateFn) (sc : SceneM) (bbox : BBox) (format : String)
    (strokeColor : Option String) (fillColor : String) : SceneM × MDrawable :=
  let n := countPersons sc + 1
  let stroke :=
    match strokeColor with
    | some c => some c
    | none =>
      let colorArr := sceneCOLORS.filter (fun c => c ≠ fillColor)
      colorArr.get? ((n - 1) % colorArr.length)
  let d : MDrawable :=
    { uuid := sc.nextUuid, name := "Person" ++ toString n, dtype := DType.person
      visible := true, alpha := some 1, strokeColor := stroke, fillColor := some fillColor
      layer := none, dirty := true, format := format, imagePath := none, bbox := bbox
      children := tpl format bbox }
  ({ drawables := sc.drawables ++ [d], nextUuid := sc.nextUuid + 1 }, d)

/-- `Scene.addImage(bbox, imagePath, {strokeColor, fillColor})`: build a
DistortableImage named `Image${n}` (format `'IMAGE'`) with a fresh uuid and
append it to the scene. -/
def addImageM (tpl : TemplateFn) (sc : SceneM) (bbox : BBox) (imagePath : Option String)
    (strokeColor : Option String) : SceneM × MDrawable :=
  let n := countImages sc + 1
  let stroke :=
    match strokeColor with
    | some c => some c
    | none => sceneCOLORS.get? ((n - 1) % sceneCOLORS.length)
  let d : MDrawable :=
    { uuid := sc.nextUuid, name := "Image" ++ toString n, dtype := DType.image
      visible := true, alpha := some 1, strokeColor := stroke, fillColor := some "white"
      layer := none, dirty := true, format := "IMAGE", imagePath := imagePath, bbox := bbox
      children := tpl "IMAGE" bbox }
  ({ drawables := sc.drawables ++ [d], nextUuid := sc.nextUuid + 1 }, d)

/-- `RevisionManager.restoreDrawable(state)` (lines 346-377, with
`canvasManager = null` so the layer-restore block is skipped): rebuild the
drawable through `scene.addPerson` / `scene.addImage` (which draws a fresh
uuid), then overwrite `drawable.uuid` with `state.uuid` and `drawable.name`
with the saved name, then `applyState`.  An unrecognized `state.type` builds
nothing. -/
def restoreDrawableM (tpl : TemplateFn) (sc : SceneM) (st : DState) : SceneM :=
  match st.stype with
  | DType.person =>
    let r := addPersonM tpl sc st.cargs.originalBBox (st.cargs.format.getD "BODY18") none "white"
    let d1 := applyStateM st { r.2 with uuid := st.uuid, name := st.cargs.name }
    { r.1 with drawables := sc.drawables ++ [d1] }
  | DType.image =>
    let r := addImageM tpl sc st.cargs.originalBBox st.cargs.imagePath none
    let d1 := applyStateM st { r.2 with uuid := st.uuid, name := st.cargs.name }
    { r.1 with drawables := sc.drawables ++ [d1] }
  | DType.other => sc

/-- Remove the first drawable with the given uuid (`Scene.removeDrawable` on
the result of `findDrawable`). -/
def eraseFirstByUuid : List MDrawable → Nat → List MDrawable
  | [], _ => []
  | d :: ds, u => if d.uuid = u then ds else d :: eraseFirstByUuid ds u

/-- Mutate the first drawable with the given uuid in place. -/
def mapFirstByUuid (f : MDrawable → MDrawable) : List MDrawable → Nat → List MDrawable
  | [], _ => []
  | d :: ds, u => if d.uuid = u then f d :: ds else d :: mapFirstByUuid f ds u

/-- One change record of a transaction. -/
inductive ChangeRec where
  | create (uuid : Nat) (state : DState)
  | destroy (uuid : Nat) (state : DState)
  | modify (uuid : Nat) (diff : DiffT)
deriving DecidableEq, Repr

/-- The revision manager state (scene-only configuration). -/
structure RMState where
  scene : SceneM
  maxHistory : Nat
  history : List (List ChangeRec)
  redoStack : List (List ChangeRec)
  snapshot : List (Nat × DState)
  isUndoing : Bool
deriving DecidableEq, Repr

/-- `initializeSnapshot()`: clear and re-capture every scene drawable. -/
def initSnapshot (sc : SceneM) : List (Nat × DState) :=
  sc.drawables.map (fun d => (d.uuid, captureDrawableState d))

/-- The capture algorithm of `handleStateChange` (destroy detection over the
snapshot, then per current drawable create detection against the snapshot's
original key set, then modify detection for dirty drawables), returning the
change records and the updated snapshot. -/
def computeChanges (snap : List (Nat × DState)) (ds : List MDrawable) :
    List ChangeRec × List (Nat × DState) :=
  let curUuids := ds.map MDrawable.uuid
  let snapKeys := snap.map Prod.fst
  let destroys := (snap.filter (fun e => ¬ curUuids.contains e.1)).map
    (fun e => ChangeRec.destroy e.1 e.2)
  let snap1 := snap.filter (fun e => curUuids.contains e.1)
  ds.foldl
    (fun acc d =>
      if ¬ snapKeys.contains d.uuid then
        (acc.1 ++ [ChangeRec.create d.uuid (captureDrawableState d)],
          acc.2 ++ [(d.uuid, captureDrawableState d)])
      else if d.dirty then
        match getAssoc? acc.2 d.uuid with
        | some old =>
          match diffStates old (captureDrawableState d) with
          | some diff =>
            (acc.1 ++ [ChangeRec.modify d.uuid diff],
              mapSet acc.2 d.uuid (captureDrawableState d))
          | none => acc
        | none => acc
      else acc)
    (destroys, snap1)

/-- The transaction-push block of `handleStateChange` (lines 159-170): push
the changes, clear the redo stack, and enforce the `max_history` cap by
splicing off the oldest transactions (`max_history` must be truthy). -/
def pushTransaction (hist : List (List ChangeRec)) (maxH : Nat) (tx : List ChangeRec) :
    List (List ChangeRec) × List (List ChangeRec) :=
  let h := hist ++ [tx]
  let h := if maxH ≠ 0 ∧ maxH < h.length then h.drop (h.length - maxH) else h
  (h, [])

/-- `handleStateChange()`: no-op while `isUndoing`; otherwise compute the
changes, push them as one transaction when any exist, and reset every
dirty flag. -/
def handleStateChangeM (rm : RMState) : RMState :=
  if rm.isUndoing then rm
  else
    let r := computeChanges rm.snapshot rm.scene.drawables
    let rm1 := { rm with snapshot := r.2 }
    let rm2 :=
      if r.1 ≠ [] then
        let p := pushTransaction rm1.history rm1.maxHistory r.1
        { rm1 with history := p.1, redoStack := p.2 }
      else rm1
    { rm2 with
        scene := { rm2.scene with
          drawables := rm2.scene.drawables.map (fun d => { d with dirty := false }) } }

/-- Undo processing of one change record (reverse iteration): a `create` is
reverted by removing the live drawable, a `destroy` by reconstructing from
the saved state, a `modify` by applying the diff's `from` values. -/
def processUndoRecord (tpl : TemplateFn) (sc : SceneM) : ChangeRec → SceneM
  | ChangeRec.create u _ => { sc with drawables := eraseFirstByUuid sc.drawables u }
  | ChangeRec.destroy _ st => restoreDrawableM tpl sc st
  | ChangeRec.modify u diff =>
    { sc with drawables := mapFirstByUuid (applyDiffM diff DiffDir.undo) sc.drawables u }

/-- Redo processing of one change record (forward iteration): `create`
reconstructs, `destroy` removes, `modify` applies the diff's `to` values. -/
def processRedoRecord (tpl : TemplateFn) (sc : SceneM) : ChangeRec → SceneM
  | ChangeRec.create _ st => restoreDrawableM tpl sc st
  | ChangeRec.destroy u _ => { sc with drawables := eraseFirstByUuid sc.drawables u }
  | ChangeRec.modify u diff =>
    { sc with drawables := mapFirstByUuid (applyDiffM diff DiffDir.redo) sc.drawables u }

/-- `RevisionManager.undo()` (lines 473-534): return immediately on empty
history; otherwise set the re-entrant guard, pop the latest transaction onto
the redo stack, process its records in reverse, re-initialize the snapshot
from the restored scene, and clear the guard. -/
def undoM (tpl : TemplateFn) (rm : RMState) : RMState :=
  match rm.history.getLast? with
  | none => rm
  | some tx =>
    let rm1 := { rm with
      isUndoing := true
      history := rm.history.dropLast
      redoStack := rm.redoStack ++ [tx] }
    let sc := tx.reverse.foldl (processUndoRecord tpl) rm1.scene
    { rm1 with scene := sc, snapshot := initSnapshot sc, isUndoing := false }

/-- `RevisionManager.redo()` (lines 536-596): return immediately on empty
redo stack; otherwise set the guard, pop the latest redo transaction back
onto the history, process its records forward, re-initialize the snapshot,
and clear the guard. -/
def redoM (tpl : TemplateFn) (rm : RMState) : RMState :=
  match rm.redoStack.getLast? with
  | none => rm
  | some tx =>
    let rm1 := { rm with
      isUndoing := true
      redoStack := rm.redoStack.dropLast
      history := rm.history ++ [tx] }
    let sc := tx.foldl (processRedoRecord tpl) rm1.scene
    { rm1 with scene := sc, snapshot := initSnapshot sc, isUndoing := false }

/-- Whether a change record's saved state carries only historical uuids below
the bound (modify records carry no saved state). -/
def recUuidBound (bound : Nat) : ChangeRec → Bool
  | ChangeRec.create _ st => st.uuid < bound
  | ChangeRec.destroy _ st => st.uuid < bound
  | ChangeRec.modify _ _ => true

/-- Whether the first path is an ancestor-or-self path (a prefix) of the
second. -/
def isAncestorPath : List Nat → List Nat → Bool
  | [], _ => true
  | _ :: _, [] => false
  | a :: as, b :: bs => a = b && isAncestorPath as bs

/- ===================================================================
   Concrete instances used by the closed witness theorems.
   =================================================================== -/

/-- A bone whose endpoints sit at `(1, 2)` and `(3, 4)`. -/
def boneW : BoneEnds :=
  { startKp := { uuid := 0, pos := some ⟨1, 2⟩, radius := 5, strokeColor := none, fillColor := none }
    endKp := { uuid := 1, pos := some ⟨3, 4⟩, radius := 5, strokeColor := none, fillColor := none } }

/-- A trivial skeleton template (no descendants). -/
def tplTriv : TemplateFn := fun _ _ => []

/-- A fresh revision manager over an empty scene. -/
def rmEmpty : RMState :=
  { scene := { drawables := [], nextUuid := 0 }, maxHistory := 100, history := []
    redoStack := [], snapshot := [], isUndoing := false }

/-- A degenerate bounding box at the origin. -/
def bboxZ : BBox := { x := 0, y := 0, width := none, height := none }

/-- A saved state of unrecognized type, used as payload of history records. -/
def dstOther : DState :=
  { stype := DType.other, uuid := 5
    cargs := { name := "X", originalBBox := bboxZ, format := none, imagePath := none }
    attributes := { visible := true, alpha := none, fillColor := none, strokeColor := none,
                    layer := none }
    children := [] }

/-- A revision manager whose history is at its cap of 2 and whose snapshot
holds a drawable absent from the scene (so a capture emits a destroy). -/
def rmCap : RMState :=
  { scene := { drawables := [], nextUuid := 0 }, maxHistory := 2
    history := [[ChangeRec.destroy 1 dstOther], [ChangeRec.destroy 2 dstOther]]
    redoStack := [[ChangeRec.destroy 3 dstOther]]
    snapshot := [(5, dstOther)], isUndoing := false }

/-- An unlocked two-node scene tree. -/
def sceneW : SceneSt :=
  { lock := 0, notifs := 0
    tree := Ent.node ⟨false, none⟩ [Ent.node ⟨false, none⟩ []] }

/-- A root with an unset-color child at index 0 and a blue child at index 1. -/
def treeW : Ent :=
  Ent.node ⟨false, some "black"⟩ [Ent.node ⟨false, none⟩ [], Ent.node ⟨false, some "blue"⟩ []]

/-- A Person drawable with no descendants and unset stroke color. -/
def drawC4 : MDrawable :=
  { uuid := 7, name := "P", dtype := DType.person, visible := true, alpha := some 1
    strokeColor := none, fillColor := some "white", layer := none, dirty := false
    format := "BODY18", imagePath := none, bbox := bboxZ, children := [] }

/-- The captured state of `drawC4` (state B of the counterexample: stroke
color null). -/
def stateBC4 : DState := captureDrawableState drawC4

/-- State A of the counterexample: stroke color `"red"`. -/
def stateAC4 : DState :=
  { stateBC4 with attributes := { stateBC4.attributes with strokeColor := some "red" } }

/-- The `modify` diff `diffStates` produces for `stateAC4 → stateBC4`. -/
def diffC4 : DiffT :=
  { attributes := { visible := none, alpha := none, fillColor := none
                    strokeColor := some ⟨some "red", none⟩, layer := none }
    children := [] }

/-- `drawC4` with stroke color `"blue"` (a state whose stroke color is
non-null, for the amended round-trip). -/
def drawC4b : MDrawable := { drawC4 with strokeColor := some "blue" }

/-- The captured state of `drawC4b`. -/
def stateBC4b : DState := captureDrawableState drawC4b

/-- `stateBC4b` with stroke color `"red"` instead. -/
def stateAC4b : DState :=
  { stateBC4b with attributes := { stateBC4b.attributes with strokeColor := some "red" } }

/-- The diff `diffStates` produces for `stateAC4b → stateBC4b`. -/
def diffC4b : DiffT :=
  { attributes := { visible := none, alpha := none, fillColor := none
                    strokeColor := some ⟨some "red", some "blue"⟩, layer := none }
    children := [] }

/-- A two-vertex skeleton structure (one of the vertices a detail point). -/
def skelW : SkelData :=
  { names := ["Neck", "Face_1"], positions := [⟨0, 0⟩, ⟨1, 1⟩]
    limbs := [{ name := "Torso", bones := [{ name := "NeckToFace_1", startName := "Neck",
                                             endName := "Face_1" }] }] }

/-- `skelW` re-targeted at shifted positions (same format, new bbox). -/
def skelW2 : SkelData := { skelW with positions := [⟨10, 10⟩, ⟨11, 11⟩] }

/-- An empty drawable skeleton (fresh `Drawable` constructor state). -/
def drawSk0 : SkDrawable := { keypointsDict := [], limbs := [], nextUuid := 0 }

/-- A saved Person state with historical uuid 3. -/
def dstPerson : DState :=
  { stype := DType.person, uuid := 3
    cargs := { name := "Person1", originalBBox := bboxZ, format := some "BODY18",
               imagePath := none }
    attributes := { visible := true, alpha := some 1, fillColor := some "white"
                    strokeColor := some "black", layer := none }
    children := [] }

/-- A revision manager whose only history transaction destroys `dstPerson`;
all uuids (live and saved) are below the fresh counter 10. -/
def rmC1 : RMState :=
  { scene := { drawables := [], nextUuid := 10 }, maxHistory := 100
    history := [[ChangeRec.destroy 3 dstPerson]], redoStack := [], snapshot := []
    isUndoing := false }

/-- An entity with a shape and one child with its own width override, for the
`setStrokeWidth` code-path evaluation. -/
def wEnt8 : WEnt :=
  { self := { strokeWidth := some 4
              shape := some { fillAttr := some (JsVal.str "white")
                              strokeAttr := some (JsVal.str "black")
                              strokeWidthAttr := some 4 } }
    children := [{ strokeWidth := some 2
                   shape := some { fillAttr := some (JsVal.str "white")
                                   strokeAttr := some (JsVal.str "black")
                                   strokeWidthAttr := some 2 } }] }


/- ===================================================================
   Theorems.
   =================================================================== -/

/-- C7: `Bone.getPosition()` returns the midpoint
`{(start.x + end.x)/2, (start.y + end.y)/2}` of its endpoints' positions
whenever both are non-null, and a null position whenever either endpoint's
position is null. -/
theorem bone_position_midpoint (b : BoneEnds) :
    (∀ ps pe, keypointGetPosition b.startKp = some ps →
      keypointGetPosition b.endKp = some pe →
      boneGetPosition b = some ⟨(ps.x + pe.x) / 2, (ps.y + pe.y) / 2⟩) ∧
    ((keypointGetPosition b.startKp = none ∨ keypointGetPosition b.endKp = none) →
      boneGetPosition b = none) := by
  constructor
  · intro ps pe hs he
    simp [boneGetPosition, hs, he]
  · intro h
    rcases h with h | h
    · simp [boneGetPosition, h]
    · cases hs : keypointGetPosition b.startKp <;> simp [boneGetPosition, hs, h]

/-- Witness for C7 at the concrete bone `boneW`. -/
theorem bone_position_midpoint_witness : boneGetPosition boneW = some ⟨2, 3⟩ := by
  have h := (bone_position_midpoint boneW).1 ⟨1, 2⟩ ⟨3, 4⟩ rfl rfl
  rw [h]
  norm_num [Pt.mk.injEq]

/-- C8 (evaluating the code at the failing input): `setStrokeWidth(10)` on an
entity with a shape and one child stores the width, but writes the resolved
width into the shape's *fill* attribute while leaving the shape's
stroke-width attribute untouched, and leaves every child completely
unchanged (the loop calls the side-effect-free getter `getStrokeWidth(null)`
instead of a setter, so no re-resolution reaches any child). -/
theorem setStrokeWidth_no_propagation :
    (setStrokeWidthM [] wEnt8 (some 10)).self.strokeWidth = some 10 ∧
    (setStrokeWidthM [] wEnt8 (some 10)).self.shape =
      some { fillAttr := some (JsVal.num 10), strokeAttr := some (JsVal.str "black")
             strokeWidthAttr := some 4 } ∧
    (setStrokeWidthM [] wEnt8 (some 10)).children = wEnt8.children := by
  refine ⟨rfl, ?_, rfl⟩
  simp [setStrokeWidthM, wEnt8, getStrokeWidthFrom]

/-- C10: `undo()` on an empty history and `redo()` on an empty redo stack
return without modifying anything: the history, redo stack, snapshot,
`isUndoing` guard and scene are all left exactly as they were. -/
theorem undo_redo_empty_noop (tpl : TemplateFn) (rm : RMState) :
    (rm.history = [] → undoM tpl rm = rm) ∧
    (rm.redoStack = [] → redoM tpl rm = rm) := by
  constructor
  · intro h
    simp [undoM, h]
  · intro h
    simp [redoM, h]

/-- Witness for C10 on a concrete fresh revision manager. -/
theorem undo_redo_empty_noop_witness :
    undoM tplTriv rmEmpty = rmEmpty ∧ redoM tplTriv rmEmpty = rmEmpty :=
  ⟨(undo_redo_empty_noop tplTriv rmEmpty).1 rfl,
   (undo_redo_empty_noop tplTriv rmEmpty).2 rfl⟩

/-- C6: a capture that emits changes always clears the redo stack, and when
the history already holds `max_history` transactions, pushing the next one
drops exactly the oldest transaction, keeping the length at `max_history`. -/
theorem handleStateChange_cap (rm : RMState)
    (h1 : rm.isUndoing = false)
    (hne : (computeChanges rm.snapshot rm.scene.drawables).1 ≠ []) :
    (handleStateChangeM rm).redoStack = [] ∧
    (rm.maxHistory ≠ 0 → rm.history.length = rm.maxHistory →
      (handleStateChangeM rm).history =
        rm.history.drop 1 ++ [(computeChanges rm.snapshot rm.scene.drawables).1] ∧
      (handleStateChangeM rm).history.length = rm.maxHistory) := by
  have hpush : ∀ hN0 : rm.maxHistory ≠ 0, rm.history.length = rm.maxHistory →
      pushTransaction rm.history rm.maxHistory (computeChanges rm.snapshot rm.scene.drawables).1 =
        (rm.history.drop 1 ++ [(computeChanges rm.snapshot rm.scene.drawables).1], []) := by
    intro hN0 hlen
    have hcond : rm.maxHistory ≠ 0 ∧ rm.maxHistory <
        (rm.history ++ [(computeChanges rm.snapshot rm.scene.drawables).1]).length := by
      refine ⟨hN0, ?_⟩
      simp [hlen]
    have hdrop : (rm.history ++ [(computeChanges rm.snapshot rm.scene.drawables).1]).length -
        rm.maxHistory = 1 := by
      simp [hlen]
    have hone : 1 ≤ rm.history.length := by
      rw [hlen]
      omega
    simp only [pushTransaction, hcond, if_true, hdrop, List.drop_append_of_le_length hone,
      and_self, ite_true]
    simp [hN0]
  constructor
  · simp only [handleStateChangeM, h1, Bool.false_eq_true, if_false, ne_eq, hne,
      not_false_eq_true, if_true, pushTransaction]
  · intro hN0 hlen
    have heq := hpush hN0 hlen
    have hh : (handleStateChangeM rm).history =
        rm.history.drop 1 ++ [(computeChanges rm.snapshot rm.scene.drawables).1] := by
      simp only [handleStateChangeM, h1, Bool.false_eq_true, if_false, ne_eq, hne,
        not_false_eq_true, if_true, heq]
    refine ⟨hh, ?_⟩
    rw [hh]
    simp only [List.length_append, List.length_drop, List.length_singleton]
    omega

/-- Witness for C6 on a concrete revision manager at its history cap. -/
theorem handleStateChange_cap_witness :
    (handleStateChangeM rmCap).redoStack = [] ∧
    (handleStateChangeM rmCap).history =
      rmCap.history.drop 1 ++ [(computeChanges rmCap.snapshot rmCap.scene.drawables).1] ∧
    (handleStateChangeM rmCap).history.length = 2 := by
  have h := handleStateChange_cap rmCap rfl (by decide)
  exact ⟨h.1, (h.2 (by decide) (by decide)).1, (h.2 (by decide) (by decide)).2⟩

/-- C9: exporting a Person to a target format whose skeleton requires
keypoints the person lacks fails with an error whose message names the
missing keypoints (their comma-separated join appears in the message), and
no JSON value is produced; with no required keypoint missing, validation
succeeds. -/
theorem export_missing_keypoints (cf tf : String) (kps req : List String)
    {α : Type} (create : String → α) :
    (missingKeypoints kps req ≠ [] →
      (∃ pre post, validatePFC cf kps tf req =
        Except.error (pre ++ String.intercalate ", " (missingKeypoints kps req) ++ post)) ∧
      (∃ pre post, exportPersonM create cf kps tf req =
        Except.error (pre ++ String.intercalate ", " (missingKeypoints kps req) ++ post))) ∧
    (missingKeypoints kps req = [] → validatePFC cf kps tf req = Except.ok true) := by
  constructor
  · intro hne
    have hval : ∃ pre post, validatePFC cf kps tf req =
        Except.error (pre ++ String.intercalate ", " (missingKeypoints kps req) ++ post) := by
      unfold validatePFC
      rw [if_neg hne]
      by_cases h1 : cf = "BODY18" ∧ tf = "BODY25"
      · rw [if_pos h1]
        refine ⟨"Cannot export BODY18 pose (18 keypoints) to BODY25 format (25 keypoints). " ++
          "BODY25 requires additional foot/toe keypoints that are not present: ",
          ". Use ControlNet Standard format instead.", ?_⟩
        simp [String.append_assoc]
      · rw [if_neg h1]
        by_cases h2 : cf = "BODY25" ∧ tf = "BODY18"
        · rw [if_pos h2]
          refine ⟨"Exporting BODY25 pose (25 keypoints) to ControlNet format (18 keypoints) " ++
            "will lose foot/toe detail: ",
            ". This is allowed but some pose precision will be lost.", ?_⟩
          simp [String.append_assoc]
        · rw [if_neg h2]
          refine ⟨"Format incompatibility: Current pose (" ++ cf ++ ", " ++
            toString kps.length ++ " keypoints) cannot be converted to " ++ tf ++
            " (" ++ toString req.length ++ " keypoints). Missing: ", "", ?_⟩
          simp [String.append_assoc, String.append_empty]
    refine ⟨hval, ?_⟩
    obtain ⟨pre, post, hv⟩ := hval
    refine ⟨"Failed to generate OpenPose JSON data for " ++ tf ++ ": " ++ pre, post, ?_⟩
    unfold exportPersonM
    rw [hv]
    simp [String.append_assoc]
  · intro hnone
    unfold validatePFC
    rw [if_pos hnone]

/-- Witness for C9: exporting a person lacking `LBigToe` to `BODY25` fails
naming it; with all required keypoints present, validation succeeds. -/
theorem export_missing_keypoints_witness :
    (∃ pre post, validatePFC "BODY18" ["Nose"] "BODY25" ["Nose", "LBigToe"] =
      Except.error (pre ++
        String.intercalate ", " (missingKeypoints ["Nose"] ["Nose", "LBigToe"]) ++ post)) ∧
    validatePFC "BODY18" ["Nose", "LBigToe"] "BODY25" ["Nose", "LBigToe"] = Except.ok true := by
  have h1 := (export_missing_keypoints "BODY18" "BODY25" ["Nose"] ["Nose", "LBigToe"]
    (fun _ => (0 : Nat))).1 (by decide)
  have h2 := (export_missing_keypoints "BODY18" "BODY25" ["Nose", "LBigToe"] ["Nose", "LBigToe"]
    (fun _ => (0 : Nat))).2 (by decide)
  exact ⟨h1.1, h2⟩


/-- Unfolding lemma: dirty flag at a cons path. -/
theorem dirtyAt_cons (j : Nat) (q : List Nat) (a : EntAttrs) (ch : List Ent) :
    dirtyAt (j :: q) (Ent.node a ch) =
      match ch[j]? with
      | some c => dirtyAt q c
      | none => false := by
  cases hj : ch[j]? <;> simp [dirtyAt, getAt?, hj]

/-- Unfolding lemma: dirty flag at the root. -/
theorem dirtyAt_nil (t : Ent) : dirtyAt [] t = t.attrs.dirty := rfl

/-- Unfolding lemma: `getAt?` at a cons path. -/
theorem getAt?_cons (j : Nat) (q : List Nat) (a : EntAttrs) (ch : List Ent) :
    getAt? (j :: q) (Ent.node a ch) =
      match ch[j]? with
      | some c => getAt? q c
      | none => none := rfl

/-- The lock counter is untouched by a mutation. -/
theorem sceneChangeState_lock (s : SceneSt) (p : List Nat) :
    (sceneChangeState s p).lock = s.lock := rfl

/-- Running a batch of mutations never changes the lock counter. -/
theorem runMutations_lock (muts : List (List Nat)) (s : SceneSt) :
    (runMutations s muts).lock = s.lock := by
  induction muts generalizing s with
  | nil => rfl
  | cons m ms ih =>
    show (runMutations (sceneChangeState s m) ms).lock = s.lock
    rw [ih]
    rfl

/-- While the lock counter is positive, mutations fire no notification. -/
theorem runMutations_notifs (muts : List (List Nat)) (s : SceneSt) (h : 0 < s.lock) :
    (runMutations s muts).notifs = s.notifs := by
  induction muts generalizing s with
  | nil => rfl
  | cons m ms ih =>
    show (runMutations (sceneChangeState s m) ms).notifs = s.notifs
    have h' : 0 < (sceneChangeState s m).lock := h
    rw [ih _ h']
    simp only [sceneChangeState]
    rw [if_pos h]

/-- The tree after a batch of mutations is the fold of the dirty markings. -/
theorem runMutations_tree (muts : List (List Nat)) (s : SceneSt) :
    (runMutations s muts).tree = muts.foldl (fun t r => markDirtyAlong r t) s.tree := by
  induction muts generalizing s with
  | nil => rfl
  | cons m ms ih =>
    show (runMutations (sceneChangeState s m) ms).tree = _
    rw [ih]
    rfl

/-- Marking dirty flags preserves the tree's shape: path validity is
unchanged. -/
theorem getAt?_markDirty_isSome (q : List Nat) : ∀ (r : List Nat) (t : Ent),
    (getAt? q (markDirtyAlong r t)).isSome = (getAt? q t).isSome := by
  induction q with
  | nil => intro r t; rfl
  | cons j q' ih =>
    intro r t
    obtain ⟨a, ch⟩ := t
    cases r with
    | nil =>
      rw [markDirtyAlong, getAt?_cons, getAt?_cons]
    | cons i r' =>
      rw [markDirtyAlong]
      cases hi : ch[i]? with
      | none =>
        rw [getAt?_cons, getAt?_cons]
      | some ci =>
        have hlt : i < ch.length := (List.getElem?_eq_some.mp hi).1
        rw [getAt?_cons, getAt?_cons]
        by_cases hji : j = i
        · subst hji
          rw [List.getElem?_set_eq_of_lt _ hlt, hi]
          exact ih r' ci
        · rw [List.getElem?_set_ne (Ne.symm hji)]

/-- Marking dirty flags never clears an already-set dirty flag. -/
theorem dirtyAt_markDirty_mono (q : List Nat) : ∀ (r : List Nat) (t : Ent),
    dirtyAt q t = true → dirtyAt q (markDirtyAlong r t) = true := by
  induction q with
  | nil =>
    intro r t _
    obtain ⟨a, ch⟩ := t
    cases r with
    | nil => rfl
    | cons i r' =>
      rw [markDirtyAlong]
      cases hi : ch[i]? <;> rfl
  | cons j q' ih =>
    intro r t hd
    obtain ⟨a, ch⟩ := t
    cases r with
    | nil =>
      rw [markDirtyAlong, dirtyAt_cons]
      rw [dirtyAt_cons] at hd
      exact hd
    | cons i r' =>
      rw [dirtyAt_cons] at hd
      rw [markDirtyAlong]
      cases hi : ch[i]? with
      | none =>
        rw [dirtyAt_cons]
        exact hd
      | some ci =>
        have hlt : i < ch.length := (List.getElem?_eq_some.mp hi).1
        rw [dirtyAt_cons]
        by_cases hji : j = i
        · subst hji
          rw [List.getElem?_set_eq_of_lt _ hlt]
          rw [hi] at hd
          exact ih r' ci hd
        · rw [List.getElem?_set_ne (Ne.symm hji)]
          exact hd

/-- `changeState(true)` at a valid path sets the dirty flag of the entity and
of every one of its ancestors. -/
theorem dirtyAt_markDirty_self (q : List Nat) : ∀ (r : List Nat) (t : Ent),
    isAncestorPath q r = true → (getAt? r t).isSome = true →
    dirtyAt q (markDirtyAlong r t) = true := by
  induction q with
  | nil =>
    intro r t _ _
    obtain ⟨a, ch⟩ := t
    cases r with
    | nil => rfl
    | cons i r' =>
      rw [markDirtyAlong]
      cases hi : ch[i]? <;> rfl
  | cons j q' ih =>
    intro r t hpre hval
    obtain ⟨a, ch⟩ := t
    cases r with
    | nil => simp [isAncestorPath] at hpre
    | cons i r' =>
      have hsplit : j = i ∧ isAncestorPath q' r' = true := by
        simpa [isAncestorPath, Bool.and_eq_true] using hpre
      obtain ⟨hji, hpre'⟩ := hsplit
      subst hji
      rw [getAt?_cons] at hval
      cases hj : ch[j]? with
      | none =>
        rw [hj] at hval
        simp at hval
      | some ci =>
        rw [hj] at hval
        have hlt : j < ch.length := (List.getElem?_eq_some.mp hj).1
        rw [markDirtyAlong, hj, dirtyAt_cons, List.getElem?_set_eq_of_lt _ hlt]
        exact ih r' ci hpre' hval

/-- Dirty flags survive any further batch of markings. -/
theorem dirtyAt_foldMark_mono (ms : List (List Nat)) (t : Ent) (q : List Nat)
    (h : dirtyAt q t = true) :
    dirtyAt q (ms.foldl (fun t r => markDirtyAlong r t) t) = true := by
  induction ms generalizing t with
  | nil => exact h
  | cons m ms ih =>
    exact ih _ (dirtyAt_markDirty_mono q m t h)

/-- Every mutation of a batch leaves the mutated entity and all its ancestors
dirty after the batch. -/
theorem dirtyAt_foldMark_self (ms : List (List Nat)) (t : Ent) (p q : List Nat)
    (hp : p ∈ ms) (hq : isAncestorPath q p = true) (hv : (getAt? p t).isSome = true) :
    dirtyAt q (ms.foldl (fun t r => markDirtyAlong r t) t) = true := by
  induction ms generalizing t with
  | nil => cases hp
  | cons m ms ih =>
    rcases List.mem_cons.mp hp with hpm | hpm
    · subst hpm
      exact dirtyAt_foldMark_mono ms _ q (dirtyAt_markDirty_self q p t hq hv)
    · refine ih (markDirtyAlong m t) hpm ?_
      rw [getAt?_markDirty_isSome]
      exact hv

/-- C2: with the scene's shared lock counter at zero and a change callback
registered, `overStateChange(fn)` produces zero `onStateChanged` invocations
while the lock is held, exactly one invocation once the lock is released, and
every mutation inside `fn` still sets the dirty flag on the mutated entity
and on all of its ancestors (the lock gates only the notification). -/
theorem overStateChange_single_notification (s : SceneSt) (muts : List (List Nat))
    (caller : List Nat) (hlock : s.lock = 0)
    (hvalid : ∀ p ∈ muts, (getAt? p s.tree).isSome = true) :
    (runMutations (lockSt s) muts).notifs = s.notifs ∧
    (overStateChange s muts caller).notifs = s.notifs + 1 ∧
    (∀ p ∈ muts, ∀ q, isAncestorPath q p = true →
      dirtyAt q (runMutations (lockSt s) muts).tree = true) := by
  have hlockpos : 0 < (lockSt s).lock := by
    simp [lockSt, hlock]
  have h1 : (runMutations (lockSt s) muts).notifs = s.notifs :=
    runMutations_notifs muts (lockSt s) hlockpos
  refine ⟨h1, ?_, ?_⟩
  · show (sceneChangeState (unlockSt (runMutations (lockSt s) muts)) caller).notifs = s.notifs + 1
    have hl : (unlockSt (runMutations (lockSt s) muts)).lock = 0 := by
      simp [unlockSt, runMutations_lock, lockSt, hlock]
    simp only [sceneChangeState, unlockSt, hl]
    have hnotpos : ¬ ((unlockSt (runMutations (lockSt s) muts)).lock > 0) := by
      rw [hl]
      omega
    rw [if_neg (by simpa [unlockSt] using hnotpos)]
    rw [h1]
  · intro p hp q hq
    rw [runMutations_tree]
    exact dirtyAt_foldMark_self muts (lockSt s).tree p q hp hq (hvalid p hp)

/-- Witness for C2 on a concrete two-node scene with one mutation. -/
theorem overStateChange_single_notification_witness :
    (overStateChange sceneW [[0]] []).notifs = sceneW.notifs + 1 ∧
    dirtyAt [0] (runMutations (lockSt sceneW) [[0]]).tree = true ∧
    dirtyAt [] (runMutations (lockSt sceneW) [[0]]).tree = true := by
  have h := overStateChange_single_notification sceneW [[0]] [] rfl (by decide)
  exact ⟨h.2.1, h.2.2 [0] (by simp) [0] rfl, h.2.2 [0] (by simp) [] rfl⟩

/-- Unfolding lemma: `updateAt` at a cons path. -/
theorem updateAt_cons (f : Ent → Ent) (i : Nat) (p : List Nat) (a : EntAttrs) (ch : List Ent) :
    updateAt f (i :: p) (Ent.node a ch) =
      match ch[i]? with
      | some c => Ent.node a (ch.set i (updateAt f p c))
      | none => Ent.node a ch := rfl

/-- Unfolding lemma: `ancChain` at a cons path. -/
theorem ancChain_cons (i : Nat) (p : List Nat) (a : EntAttrs) (ch : List Ent) :
    ancChain (i :: p) (Ent.node a ch) =
      match ch[i]? with
      | some c => ancChain p c ++ [a.strokeColor]
      | none => [] := rfl

/-- `getStrokeColor` with an explicitly set own color returns it. -/
theorem getStrokeColorFrom_some (c : String) (anc : List (Option String)) :
    getStrokeColorFrom (some c) anc = some c := by
  cases anc <;> rfl

/-- `getStrokeColor` with no own color is the first explicitly set color of
the ancestor chain, if any. -/
theorem getStrokeColorFrom_none (anc : List (Option String)) :
    getStrokeColorFrom none anc = anc.findSome? id := by
  induction anc with
  | nil => rfl
  | cons a rest ih =>
    cases a with
    | none =>
      rw [getStrokeColorFrom, ih]
      simp [List.findSome?_cons]
    | some c => simp [getStrokeColorFrom, List.findSome?_cons]

/-- Looking up the updated path yields the rewritten entity. -/
theorem getAt?_updateAt (f : Ent → Ent) (p : List Nat) : ∀ t : Ent,
    getAt? p (updateAt f p t) = (getAt? p t).map f := by
  induction p with
  | nil => intro t; rfl
  | cons i p' ih =>
    intro t
    obtain ⟨a, ch⟩ := t
    rw [updateAt_cons]
    cases hi : ch[i]? with
    | none => simp [getAt?_cons, hi]
    | some ci =>
      have hlt : i < ch.length := (List.getElem?_eq_some.mp hi).1
      simp only [getAt?_cons, hi, List.getElem?_set_eq_of_lt _ hlt]
      exact ih ci

/-- Rewriting the entity at a path leaves its own ancestor chain unchanged. -/
theorem ancChain_updateAt (f : Ent → Ent) (p : List Nat) : ∀ t : Ent,
    ancChain p (updateAt f p t) = ancChain p t := by
  induction p with
  | nil => intro t; rfl
  | cons i p' ih =>
    intro t
    obtain ⟨a, ch⟩ := t
    rw [updateAt_cons]
    cases hi : ch[i]? with
    | none => simp [ancChain_cons, hi]
    | some ci =>
      have hlt : i < ch.length := (List.getElem?_eq_some.mp hi).1
      simp only [ancChain_cons, hi, List.getElem?_set_eq_of_lt _ hlt]
      simp [ih ci]

/-- Rewriting the entity at `q ++ [i]` does not change what a sibling path
`q ++ [j]` reaches. -/
theorem getAt?_updateAt_sibling (f : Ent → Ent) (q : List Nat) : ∀ (t : Ent) (i j : Nat),
    j ≠ i → getAt? (q ++ [j]) (updateAt f (q ++ [i]) t) = getAt? (q ++ [j]) t := by
  induction q with
  | nil =>
    intro t i j hji
    obtain ⟨a, ch⟩ := t
    rw [List.nil_append, List.nil_append, updateAt_cons]
    cases hi : ch[i]? with
    | none => rfl
    | some ci =>
      rw [getAt?_cons, getAt?_cons, List.getElem?_set_ne (Ne.symm hji)]
  | cons k q' ih =>
    intro t i j hji
    obtain ⟨a, ch⟩ := t
    rw [List.cons_append, List.cons_append, updateAt_cons]
    cases hk : ch[k]? with
    | none => rfl
    | some ck =>
      have hlt : k < ch.length := (List.getElem?_eq_some.mp hk).1
      rw [getAt?_cons, getAt?_cons, hk, List.getElem?_set_eq_of_lt _ hlt]
      exact ih ck i j hji

/-- Rewriting the entity at `q ++ [i]` does not change a sibling's ancestor
chain. -/
theorem ancChain_updateAt_sibling (f : Ent → Ent) (q : List Nat) : ∀ (t : Ent) (i j : Nat),
    j ≠ i → ancChain (q ++ [j]) (updateAt f (q ++ [i]) t) = ancChain (q ++ [j]) t := by
  induction q with
  | nil =>
    intro t i j hji
    obtain ⟨a, ch⟩ := t
    rw [List.nil_append, List.nil_append, updateAt_cons]
    cases hi : ch[i]? with
    | none => rfl
    | some ci =>
      rw [ancChain_cons, ancChain_cons, List.getElem?_set_ne (Ne.symm hji)]
  | cons k q' ih =>
    intro t i j hji
    obtain ⟨a, ch⟩ := t
    rw [List.cons_append, List.cons_append, updateAt_cons]
    cases hk : ch[k]? with
    | none => rfl
    | some ck =>
      have hlt : k < ch.length := (List.getElem?_eq_some.mp hk).1
      simp only [ancChain_cons, hk, List.getElem?_set_eq_of_lt _ hlt]
      simp [ih ck i j hji]

/-- Storing a non-null color sets the own stored color. -/
theorem setStrokeColorE_some_attrs (e : Ent) (c : String) :
    (setStrokeColorE e (some c)).attrs.strokeColor = some c := by
  obtain ⟨a, ch⟩ := e
  rfl

/-- C5: an entity with unset own stroke color resolves to the nearest
ancestor's explicitly set color (`findSome?` over the nearest-first ancestor
chain; `none`, the root default, when no ancestor has one set); after
`setStrokeColor(c)` with non-null `c` the entity resolves to `c`, while every
sibling's resolved stroke color is unchanged. -/
theorem strokeColor_inheritance (t : Ent) (p : List Nat) (e : Ent)
    (hget : getAt? p t = some e) (hown : e.attrs.strokeColor = none) :
    resolveStrokeAt p t = (ancChain p t).findSome? id ∧
    (∀ c : String, resolveStrokeAt p (setStrokeColorAt c p t) = some c) ∧
    (∀ (c : String) (q : List Nat) (i j : Nat), p = q ++ [i] → j ≠ i →
      resolveStrokeAt (q ++ [j]) (setStrokeColorAt c p t) = resolveStrokeAt (q ++ [j]) t) := by
  refine ⟨?_, ?_, ?_⟩
  · simp only [resolveStrokeAt, hget, hown, getStrokeColorFrom_none]
  · intro c
    simp only [setStrokeColorAt, resolveStrokeAt, getAt?_updateAt, ancChain_updateAt, hget,
      Option.map_some', setStrokeColorE_some_attrs, getStrokeColorFrom_some]
  · intro c q i j hpq hji
    subst hpq
    simp only [setStrokeColorAt, resolveStrokeAt,
      getAt?_updateAt_sibling _ q t i j hji, ancChain_updateAt_sibling _ q t i j hji]

/-- Witness for C5 on the concrete tree `treeW`. -/
theorem strokeColor_inheritance_witness :
    resolveStrokeAt [0] treeW = some "black" ∧
    resolveStrokeAt [0] (setStrokeColorAt "red" [0] treeW) = some "red" ∧
    resolveStrokeAt [1] (setStrokeColorAt "red" [0] treeW) = resolveStrokeAt [1] treeW := by
  have h := strokeColor_inheritance treeW [0] (Ent.node ⟨false, none⟩ []) rfl rfl
  refine ⟨?_, h.2.1 "red", h.2.2 "red" [] 0 1 rfl (by decide)⟩
  rw [h.1]
  rfl

/-- Updating a key leaves the dictionary's key list unchanged. -/
theorem keys_setAssocFirst {κ α : Type} [DecidableEq κ] (l : List (κ × α)) (k : κ) (f : α → α) :
    (setAssocFirst l k f).map Prod.fst = l.map Prod.fst := by
  induction l with
  | nil => rfl
  | cons e rest ih =>
    obtain ⟨k', v⟩ := e
    by_cases h : k' = k
    · subst h
      simp [setAssocFirst]
    · simp [setAssocFirst, h, ih]

/-- Lookup after updating the same key. -/
theorem getAssoc?_setAssocFirst_self {κ α : Type} [DecidableEq κ] (l : List (κ × α)) (k : κ)
    (f : α → α) : getAssoc? (setAssocFirst l k f) k = (getAssoc? l k).map f := by
  induction l with
  | nil => rfl
  | cons e rest ih =>
    obtain ⟨k', v⟩ := e
    by_cases h : k' = k
    · subst h
      simp [setAssocFirst, getAssoc?]
    · simp [setAssocFirst, getAssoc?, h, ih]

/-- Lookup after updating a different key. -/
theorem getAssoc?_setAssocFirst_ne {κ α : Type} [DecidableEq κ] (l : List (κ × α)) (k m : κ)
    (f : α → α) (h : m ≠ k) : getAssoc? (setAssocFirst l k f) m = getAssoc? l m := by
  induction l with
  | nil => rfl
  | cons e rest ih =>
    obtain ⟨k', v⟩ := e
    by_cases hk : k' = k
    · subst hk
      have : k' ≠ m := fun hh => h hh.symm
      simp [setAssocFirst, getAssoc?, this]
    · by_cases hm : k' = m
      · subst hm
        simp [setAssocFirst, getAssoc?, hk]
      · simp [setAssocFirst, getAssoc?, hk, hm, ih]

/-- Lookup in an appended dictionary. -/
theorem getAssoc?_append {κ α : Type} [DecidableEq κ] (l1 l2 : List (κ × α)) (k : κ) :
    getAssoc? (l1 ++ l2) k =
      match getAssoc? l1 k with
      | some v => some v
      | none => getAssoc? l2 k := by
  induction l1 with
  | nil => rfl
  | cons e rest ih =>
    obtain ⟨k', v⟩ := e
    by_cases h : k' = k
    · subst h
      simp [getAssoc?]
    · simp [getAssoc?, h, ih]

/-- One keypoint-loop step on an already-present name: the step reports an
existing skeleton and only rewrites the named entry's fields, preserving the
key list, every keypoint's identity, the limbs and the uuid counter. -/
theorem buildStep_present (d : SkDrawable) (b : Bool) (nm : String) (pos : Pt)
    (hmem : (getAssoc? d.keypointsDict nm).isSome = true) :
    (buildSkeletonKpStep (d, b) (nm, pos)).2 = true ∧
    (buildSkeletonKpStep (d, b) (nm, pos)).1.keypointsDict.map Prod.fst =
      d.keypointsDict.map Prod.fst ∧
    (∀ n, (getAssoc? (buildSkeletonKpStep (d, b) (nm, pos)).1.keypointsDict n).map
      KeypointM.uuid = (getAssoc? d.keypointsDict n).map KeypointM.uuid) ∧
    (buildSkeletonKpStep (d, b) (nm, pos)).1.limbs = d.limbs ∧
    (buildSkeletonKpStep (d, b) (nm, pos)).1.nextUuid = d.nextUuid := by
  obtain ⟨kp, hkp⟩ := Option.isSome_iff_exists.mp hmem
  have huuid : ∀ (g : KeypointM → KeypointM), (∀ x, (g x).uuid = x.uuid) → ∀ n,
      (getAssoc? (setAssocFirst d.keypointsDict nm g) n).map KeypointM.uuid =
      (getAssoc? d.keypointsDict n).map KeypointM.uuid := by
    intro g hg n
    by_cases h : n = nm
    · subst h
      rw [getAssoc?_setAssocFirst_self, hkp]
      simp [hg]
    · rw [getAssoc?_setAssocFirst_ne _ _ _ _ h]
  simp only [buildSkeletonKpStep, hkp]
  by_cases hdet : isDetailName nm = true
  · simp only [hdet, if_true]
    refine ⟨by trivial, ?_, ?_, by trivial, by trivial⟩
    · simp [keys_setAssocFirst]
    · intro n
      by_cases h : n = nm
      · subst h
        rw [getAssoc?_setAssocFirst_self, getAssoc?_setAssocFirst_self, hkp]
        simp
      · rw [getAssoc?_setAssocFirst_ne _ _ _ _ h, getAssoc?_setAssocFirst_ne _ _ _ _ h]
  · simp only [Bool.not_eq_true] at hdet
    simp only [hdet, Bool.false_eq_true, if_false]
    refine ⟨by trivial, ?_, ?_, by trivial, by trivial⟩
    · simp [keys_setAssocFirst]
    · exact huuid _ (fun x => rfl)

/-- A name present in the dictionary stays present after any keypoint-loop
step. -/
theorem buildStep_mem_preserved (d : SkDrawable) (b : Bool) (nm : String) (pos : Pt)
    (n : String) (h : (getAssoc? d.keypointsDict n).isSome = true) :
    (getAssoc? (buildSkeletonKpStep (d, b) (nm, pos)).1.keypointsDict n).isSome = true := by
  have hiso : ∀ (l : List (String × KeypointM)) (k : String) (g : KeypointM → KeypointM),
      (getAssoc? l n).isSome = true → (getAssoc? (setAssocFirst l k g) n).isSome = true := by
    intro l k g hh
    by_cases hnk : n = k
    · subst hnk
      rw [getAssoc?_setAssocFirst_self]
      simpa using hh
    · rw [getAssoc?_setAssocFirst_ne _ _ _ _ hnk]
      exact hh
  have happ : ∀ (l : List (String × KeypointM)) (e : String × KeypointM),
      (getAssoc? l n).isSome = true → (getAssoc? (l ++ [e]) n).isSome = true := by
    intro l e hh
    rw [getAssoc?_append]
    obtain ⟨v, hv⟩ := Option.isSome_iff_exists.mp hh
    rw [hv]
    rfl
  simp only [buildSkeletonKpStep]
  cases hnm : getAssoc? d.keypointsDict nm with
  | none =>
    by_cases hdet : isDetailName nm = true
    · simp only [hnm, hdet, if_true]
      exact hiso _ _ _ (happ _ _ h)
    · simp only [Bool.not_eq_true] at hdet
      simp only [hnm, hdet, Bool.false_eq_true, if_false]
      exact happ _ _ h
  | some kp =>
    by_cases hdet : isDetailName nm = true
    · simp only [hnm, hdet, if_true]
      exact hiso _ _ _ (hiso _ _ _ h)
    · simp only [Bool.not_eq_true] at hdet
      simp only [hnm, hdet, Bool.false_eq_true, if_false]
      exact hiso _ _ _ h

/-- After a keypoint-loop step, the processed name is present. -/
theorem buildStep_mem_self (d : SkDrawable) (b : Bool) (nm : String) (pos : Pt) :
    (getAssoc? (buildSkeletonKpStep (d, b) (nm, pos)).1.keypointsDict nm).isSome = true := by
  have hiso : ∀ (l : List (String × KeypointM)) (g : KeypointM → KeypointM),
      (getAssoc? l nm).isSome = true → (getAssoc? (setAssocFirst l nm g) nm).isSome = true := by
    intro l g hh
    rw [getAssoc?_setAssocFirst_self]
    simpa using hh
  simp only [buildSkeletonKpStep]
  cases hnm : getAssoc? d.keypointsDict nm with
  | none =>
    have happ : (getAssoc? (d.keypointsDict ++
        [(nm, { uuid := d.nextUuid, pos := some pos, radius := 5, strokeColor := none,
                fillColor := none })]) nm).isSome = true := by
      rw [getAssoc?_append, hnm]
      simp [getAssoc?]
    by_cases hdet : isDetailName nm = true
    · simp only [hnm, hdet, if_true]
      exact hiso _ _ happ
    · simp only [Bool.not_eq_true] at hdet
      simp only [hnm, hdet, Bool.false_eq_true, if_false]
      exact happ
  | some kp =>
    have hpres : (getAssoc? (setAssocFirst d.keypointsDict nm
        (fun k => { k with pos := some pos })) nm).isSome = true := by
      rw [getAssoc?_setAssocFirst_self, hnm]
      rfl
    by_cases hdet : isDetailName nm = true
    · simp only [hnm, hdet, if_true]
      exact hiso _ _ hpres
    · simp only [Bool.not_eq_true] at hdet
      simp only [hnm, hdet, Bool.false_eq_true, if_false]
      exact hpres

/-- Presence of a name survives the whole keypoint loop. -/
theorem buildFold_mem_mono (L : List (String × Pt)) (acc : SkDrawable × Bool) (n : String)
    (h : (getAssoc? acc.1.keypointsDict n).isSome = true) :
    (getAssoc? (L.foldl buildSkeletonKpStep acc).1.keypointsDict n).isSome = true := by
  induction L generalizing acc with
  | nil => exact h
  | cons e L' ih =>
    obtain ⟨d, b⟩ := acc
    obtain ⟨nm, pos⟩ := e
    rw [List.foldl_cons]
    exact ih (buildSkeletonKpStep (d, b) (nm, pos)) (buildStep_mem_preserved d b nm pos n h)

/-- Every name processed by the keypoint loop is present afterwards. -/
theorem buildFold_covers (L : List (String × Pt)) (acc : SkDrawable × Bool) (e : String × Pt)
    (he : e ∈ L) :
    (getAssoc? (L.foldl buildSkeletonKpStep acc).1.keypointsDict e.1).isSome = true := by
  induction L generalizing acc with
  | nil => cases he
  | cons e0 L' ih =>
    obtain ⟨d, b⟩ := acc
    obtain ⟨nm, pos⟩ := e0
    rcases List.mem_cons.mp he with h0 | h0
    · subst h0
      rw [List.foldl_cons]
      exact buildFold_mem_mono L' (buildSkeletonKpStep (d, b) (nm, pos)) nm
        (buildStep_mem_self d b nm pos)
    · rw [List.foldl_cons]
      exact ih (buildSkeletonKpStep (d, b) (nm, pos)) h0

/-- The keypoint loop over a list of already-present names preserves keys,
per-name keypoint identity, limbs and the uuid counter, and reports an
existing skeleton as soon as one step ran. -/
theorem buildFold_present (L : List (String × Pt)) (acc : SkDrawable × Bool)
    (h : ∀ e ∈ L, (getAssoc? acc.1.keypointsDict e.1).isSome = true) :
    ((L.foldl buildSkeletonKpStep acc).1.keypointsDict.map Prod.fst =
      acc.1.keypointsDict.map Prod.fst) ∧
    (∀ n, (getAssoc? (L.foldl buildSkeletonKpStep acc).1.keypointsDict n).map KeypointM.uuid =
      (getAssoc? acc.1.keypointsDict n).map KeypointM.uuid) ∧
    (L.foldl buildSkeletonKpStep acc).1.limbs = acc.1.limbs ∧
    (L.foldl buildSkeletonKpStep acc).1.nextUuid = acc.1.nextUuid ∧
    (L ≠ [] → (L.foldl buildSkeletonKpStep acc).2 = true) ∧
    (acc.2 = true → (L.foldl buildSkeletonKpStep acc).2 = true) := by
  induction L generalizing acc with
  | nil =>
    exact ⟨rfl, fun _ => rfl, rfl, rfl, fun hc => absurd rfl hc, fun hb => hb⟩
  | cons e L' ih =>
    obtain ⟨d, b⟩ := acc
    obtain ⟨nm, pos⟩ := e
    have hmem : (getAssoc? d.keypointsDict nm).isSome = true := h (nm, pos) (by simp)
    have hstep := buildStep_present d b nm pos hmem
    have hrest : ∀ e' ∈ L', (getAssoc?
        (buildSkeletonKpStep (d, b) (nm, pos)).1.keypointsDict e'.1).isSome = true := by
      intro e' he'
      have := h e' (List.mem_cons_of_mem _ he')
      obtain ⟨v, hv⟩ := Option.isSome_iff_exists.mp this
      have := hstep.2.2.1 e'.1
      rw [hv] at this
      cases hx : getAssoc? (buildSkeletonKpStep (d, b) (nm, pos)).1.keypointsDict e'.1 with
      | none => rw [hx] at this; simp at this
      | some _ => rfl
    have ihr := ih _ hrest
    have hfold : ((nm, pos) :: L').foldl buildSkeletonKpStep (d, b) =
        L'.foldl buildSkeletonKpStep (buildSkeletonKpStep (d, b) (nm, pos)) :=
      List.foldl_cons _ _
    refine ⟨?_, ?_, ?_, ?_, ?_, ?_⟩
    · rw [hfold, ihr.1, hstep.2.1]
    · intro n
      rw [hfold, ihr.2.1 n, hstep.2.2.1 n]
    · rw [hfold, ihr.2.2.1, hstep.2.2.2.1]
    · rw [hfold, ihr.2.2.2.1, hstep.2.2.2.2]
    · intro _
      rw [hfold]
      exact ihr.2.2.2.2.2 hstep.1
    · intro _
      rw [hfold]
      exact ihr.2.2.2.2.2 hstep.1

/-- C3: a second `buildSkeleton` with the same format (same vertex names,
possibly re-targeted positions) on a drawable whose first build completed
updates positions only: the key list of `keypointsDict` is unchanged, every
name still maps to the same keypoint (identity by uuid), and no new limbs or
bones are constructed. -/
theorem buildSkeleton_idempotent (d0 : SkDrawable) (sd1 sd2 : SkelData)
    (hn : sd2.names = sd1.names) (hne : sd1.names ≠ [])
    (hlen1 : sd1.positions.length = sd1.names.length)
    (hlen2 : sd2.positions.length = sd2.names.length) :
    (buildSkeletonM (buildSkeletonM d0 sd1) sd2).keypointsDict.map Prod.fst =
      (buildSkeletonM d0 sd1).keypointsDict.map Prod.fst ∧
    (∀ n, (getAssoc? (buildSkeletonM (buildSkeletonM d0 sd1) sd2).keypointsDict n).map
        KeypointM.uuid =
      (getAssoc? (buildSkeletonM d0 sd1).keypointsDict n).map KeypointM.uuid) ∧
    (buildSkeletonM (buildSkeletonM d0 sd1) sd2).limbs = (buildSkeletonM d0 sd1).limbs := by
  have hkeys1 : (sd1.names.zip sd1.positions).map Prod.fst = sd1.names :=
    List.map_fst_zip _ _ (le_of_eq hlen1.symm)
  have hkeys2 : (sd2.names.zip sd2.positions).map Prod.fst = sd2.names :=
    List.map_fst_zip _ _ (le_of_eq hlen2.symm)
  -- every name of the first build's input is present in the first build's result
  have hcover : ∀ n ∈ sd1.names,
      (getAssoc? (buildSkeletonM d0 sd1).keypointsDict n).isSome = true := by
    intro n hmemn
    have hzmem : ∃ e ∈ sd1.names.zip sd1.positions, e.1 = n := by
      have : n ∈ (sd1.names.zip sd1.positions).map Prod.fst := by
        rw [hkeys1]
        exact hmemn
      obtain ⟨e, he, hee⟩ := List.mem_map.mp this
      exact ⟨e, he, hee⟩
    obtain ⟨e, he, hee⟩ := hzmem
    subst hee
    have hc := buildFold_covers (sd1.names.zip sd1.positions) (d0, false) e he
    simp only [buildSkeletonM]
    split
    · exact hc
    · -- the limb-building phase does not touch the dictionary
      have hlimbs : ∀ (ls : List LimbSpec) (d : SkDrawable),
          (ls.foldl buildLimbsStep d).keypointsDict = d.keypointsDict := by
        intro ls
        induction ls with
        | nil => intro d; rfl
        | cons l0 ls' ih =>
          intro d
          rw [List.foldl_cons, ih]
          rfl
      rw [hlimbs]
      exact hc
  have hpres2 : ∀ e ∈ sd2.names.zip sd2.positions,
      (getAssoc? (buildSkeletonM d0 sd1).keypointsDict e.1).isSome = true := by
    intro e he
    apply hcover
    have : e.1 ∈ (sd2.names.zip sd2.positions).map Prod.fst := List.mem_map_of_mem _ he
    rw [hkeys2, hn] at this
    exact this
  have hz2ne : sd2.names.zip sd2.positions ≠ [] := by
    intro hz
    have : (sd2.names.zip sd2.positions).length = 0 := by rw [hz]; rfl
    rw [List.length_zip, hlen2, hn] at this
    simp at this
    exact hne this
  have hf := buildFold_present (sd2.names.zip sd2.positions) (buildSkeletonM d0 sd1, false)
    hpres2
  have hex : ((sd2.names.zip sd2.positions).foldl buildSkeletonKpStep
      (buildSkeletonM d0 sd1, false)).2 = true := hf.2.2.2.2.1 hz2ne
  constructor
  · conv_lhs => rw [buildSkeletonM]
    rw [if_pos hex]
    exact hf.1
  constructor
  · intro n
    conv_lhs => rw [buildSkeletonM]
    rw [if_pos hex]
    exact hf.2.1 n
  · conv_lhs => rw [buildSkeletonM]
    rw [if_pos hex]
    exact hf.2.2.1

/-- Witness for C3 on the concrete skeleton `skelW`, rebuilt at shifted
positions `skelW2`. -/
theorem buildSkeleton_idempotent_witness :
    (buildSkeletonM (buildSkeletonM drawSk0 skelW) skelW2).keypointsDict.map Prod.fst =
      (buildSkeletonM drawSk0 skelW).keypointsDict.map Prod.fst ∧
    (getAssoc? (buildSkeletonM (buildSkeletonM drawSk0 skelW) skelW2).keypointsDict
        "Neck").map KeypointM.uuid =
      (getAssoc? (buildSkeletonM drawSk0 skelW).keypointsDict "Neck").map KeypointM.uuid ∧
    (buildSkeletonM (buildSkeletonM drawSk0 skelW) skelW2).limbs =
      (buildSkeletonM drawSk0 skelW).limbs := by
  have h := buildSkeleton_idempotent drawSk0 skelW skelW2 rfl (by decide) rfl rfl
  exact ⟨h.1, h.2.1 "Neck", h.2.2⟩

/-- The last element of a list is a member. -/
theorem getLastMem {α : Type} (l : List α) (a : α) (h : l.getLast? = some a) : a ∈ l := by
  have h2 : l ≠ [] := by
    intro he
    rw [he] at h
    cases h
  rw [List.getLast?_eq_getLast l h2] at h
  have hm := List.getLast_mem h2
  rw [Option.some_inj] at h
  rw [h] at hm
  exact hm

/-- `applyState` never touches the drawable's uuid. -/
theorem applyStateM_uuid (st : DState) (d : MDrawable) : (applyStateM st d).uuid = d.uuid := by
  simp only [applyStateM]
  cases st.attributes.strokeColor <;> cases st.attributes.fillColor <;> rfl

/-- `applyDiff` never touches the drawable's uuid. -/
theorem applyDiffM_uuid (diff : DiffT) (dir : DiffDir) (d : MDrawable) :
    (applyDiffM diff dir d).uuid = d.uuid := by
  simp only [applyDiffM]
  repeat' split
  all_goals rfl

/-- Removing a drawable only removes: every survivor was already present. -/
theorem mem_eraseFirstByUuid (l : List MDrawable) (u : Nat) (d : MDrawable)
    (h : d ∈ eraseFirstByUuid l u) : d ∈ l := by
  induction l with
  | nil => cases h
  | cons d0 ds ih =>
    by_cases h0 : d0.uuid = u
    · simp only [eraseFirstByUuid, h0, if_true] at h
      exact List.mem_cons_of_mem _ h
    · simp only [eraseFirstByUuid, h0, if_false] at h
      rcases List.mem_cons.mp h with h1 | h1
      · exact h1 ▸ List.mem_cons_self _ _
      · exact List.mem_cons_of_mem _ (ih h1)

/-- A member of an in-place mutation is an old member or the image of the
drawable with the targeted uuid. -/
theorem mem_mapFirstByUuid (f : MDrawable → MDrawable) (l : List MDrawable) (u : Nat)
    (d : MDrawable) (h : d ∈ mapFirstByUuid f l u) : d ∈ l ∨ ∃ d0, d0 ∈ l ∧ d = f d0 := by
  induction l with
  | nil => cases h
  | cons d0 ds ih =>
    by_cases h0 : d0.uuid = u
    · simp only [mapFirstByUuid, h0, if_true] at h
      rcases List.mem_cons.mp h with h1 | h1
      · exact Or.inr ⟨d0, List.mem_cons_self _ _, h1⟩
      · exact Or.inl (List.mem_cons_of_mem _ h1)
    · simp only [mapFirstByUuid, h0, if_false] at h
      rcases List.mem_cons.mp h with h1 | h1
      · exact Or.inl (h1 ▸ List.mem_cons_self _ _)
      · rcases ih h1 with h2 | ⟨d1, hd1, hd2⟩
        · exact Or.inl (List.mem_cons_of_mem _ h2)
        · exact Or.inr ⟨d1, List.mem_cons_of_mem _ hd1, hd2⟩

/-- Every drawable of a scene after `restoreDrawable` was already present or
carries the saved state's historical uuid. -/
theorem mem_restoreDrawableM (tpl : TemplateFn) (sc : SceneM) (st : DState) (d : MDrawable)
    (h : d ∈ (restoreDrawableM tpl sc st).drawables) :
    d ∈ sc.drawables ∨ d.uuid = st.uuid := by
  cases hst : st.stype with
  | person =>
    simp only [restoreDrawableM, hst] at h
    rcases List.mem_append.mp h with h1 | h1
    · exact Or.inl h1
    · rcases List.mem_singleton.mp h1 with h2
      refine Or.inr ?_
      rw [h2, applyStateM_uuid]
  | image =>
    simp only [restoreDrawableM, hst] at h
    rcases List.mem_append.mp h with h1 | h1
    · exact Or.inl h1
    · rcases List.mem_singleton.mp h1 with h2
      refine Or.inr ?_
      rw [h2, applyStateM_uuid]
  | other =>
    simp only [restoreDrawableM, hst] at h
    exact Or.inl h

/-- One undo record keeps every scene uuid below the historical bound. -/
theorem processUndoRecord_bound (tpl : TemplateFn) (sc : SceneM) (r : ChangeRec) (N : Nat)
    (hs : ∀ d ∈ sc.drawables, d.uuid < N) (hr : recUuidBound N r = true) :
    ∀ d ∈ (processUndoRecord tpl sc r).drawables, d.uuid < N := by
  intro d hd
  cases r with
  | create u st =>
    exact hs d (mem_eraseFirstByUuid _ _ _ hd)
  | destroy u st =>
    rcases mem_restoreDrawableM tpl sc st d hd with h1 | h1
    · exact hs d h1
    · rw [h1]
      exact of_decide_eq_true hr
  | modify u diff =>
    rcases mem_mapFirstByUuid _ _ _ _ hd with h1 | ⟨d0, hd0, hval⟩
    · exact hs d h1
    · rw [hval, applyDiffM_uuid]
      exact hs d0 hd0

/-- One redo record keeps every scene uuid below the historical bound. -/
theorem processRedoRecord_bound (tpl : TemplateFn) (sc : SceneM) (r : ChangeRec) (N : Nat)
    (hs : ∀ d ∈ sc.drawables, d.uuid < N) (hr : recUuidBound N r = true) :
    ∀ d ∈ (processRedoRecord tpl sc r).drawables, d.uuid < N := by
  intro d hd
  cases r with
  | create u st =>
    rcases mem_restoreDrawableM tpl sc st d hd with h1 | h1
    · exact hs d h1
    · rw [h1]
      exact of_decide_eq_true hr
  | destroy u st =>
    exact hs d (mem_eraseFirstByUuid _ _ _ hd)
  | modify u diff =>
    rcases mem_mapFirstByUuid _ _ _ _ hd with h1 | ⟨d0, hd0, hval⟩
    · exact hs d h1
    · rw [hval, applyDiffM_uuid]
      exact hs d0 hd0

/-- Folding undo records keeps every scene uuid below the historical bound. -/
theorem foldUndo_bound (tpl : TemplateFn) (recs : List ChangeRec) (N : Nat) :
    ∀ (sc : SceneM), (∀ r ∈ recs, recUuidBound N r = true) →
    (∀ d ∈ sc.drawables, d.uuid < N) →
    ∀ d ∈ (recs.foldl (processUndoRecord tpl) sc).drawables, d.uuid < N := by
  induction recs with
  | nil => intro sc _ hs; exact hs
  | cons r recs' ih =>
    intro sc hr hs
    rw [List.foldl_cons]
    refine ih (processUndoRecord tpl sc r) (fun r' h' => hr r' (List.mem_cons_of_mem _ h')) ?_
    exact processUndoRecord_bound tpl sc r N hs (hr r (List.mem_cons_self _ _))

/-- Folding redo records keeps every scene uuid below the historical bound. -/
theorem foldRedo_bound (tpl : TemplateFn) (recs : List ChangeRec) (N : Nat) :
    ∀ (sc : SceneM), (∀ r ∈ recs, recUuidBound N r = true) →
    (∀ d ∈ sc.drawables, d.uuid < N) →
    ∀ d ∈ (recs.foldl (processRedoRecord tpl) sc).drawables, d.uuid < N := by
  induction recs with
  | nil => intro sc _ hs; exact hs
  | cons r recs' ih =>
    intro sc hr hs
    rw [List.foldl_cons]
    refine ih (processRedoRecord tpl sc r) (fun r' h' => hr r' (List.mem_cons_of_mem _ h')) ?_
    exact processRedoRecord_bound tpl sc r N hs (hr r (List.mem_cons_self _ _))

/-- C1: reconstruction during undo/redo restores the historical identity.
`restoreDrawable` appends exactly one drawable whose uuid is the saved
state's uuid (the freshly generated identifier is overwritten before the
scene is snapshotted again), and neither `undo()` nor `redo()` can leave any
drawable carrying a freshly generated identifier: when every live uuid and
every uuid saved in the processed transactions lies below a bound (the
fresh-counter draws lie at or above it), every drawable after the revert
still lies below that bound. -/
theorem restore_preserves_uuid (tpl : TemplateFn) :
    (∀ (sc : SceneM) (st : DState), st.stype = DType.person ∨ st.stype = DType.image →
      ∃ d, (restoreDrawableM tpl sc st).drawables = sc.drawables ++ [d] ∧ d.uuid = st.uuid) ∧
    (∀ (rm : RMState) (N : Nat), (∀ d ∈ rm.scene.drawables, d.uuid < N) →
      (∀ tx ∈ rm.history, ∀ r ∈ tx, recUuidBound N r = true) →
      ∀ d ∈ (undoM tpl rm).scene.drawables, d.uuid < N) ∧
    (∀ (rm : RMState) (N : Nat), (∀ d ∈ rm.scene.drawables, d.uuid < N) →
      (∀ tx ∈ rm.redoStack, ∀ r ∈ tx, recUuidBound N r = true) →
      ∀ d ∈ (redoM tpl rm).scene.drawables, d.uuid < N) := by
  refine ⟨?_, ?_, ?_⟩
  · intro sc st h
    rcases h with h | h
    · refine ⟨applyStateM st { (addPersonM tpl sc st.cargs.originalBBox
        (st.cargs.format.getD "BODY18") none "white").2 with
          uuid := st.uuid, name := st.cargs.name }, ?_, ?_⟩
      · simp only [restoreDrawableM, h]
      · rw [applyStateM_uuid]
    · refine ⟨applyStateM st { (addImageM tpl sc st.cargs.originalBBox
        st.cargs.imagePath none).2 with uuid := st.uuid, name := st.cargs.name }, ?_, ?_⟩
      · simp only [restoreDrawableM, h]
      · rw [applyStateM_uuid]
  · intro rm N hs hh d hd
    cases hlast : rm.history.getLast? with
    | none =>
      simp only [undoM, hlast] at hd
      exact hs d hd
    | some tx =>
      have htx : tx ∈ rm.history := getLastMem _ _ hlast
      simp only [undoM, hlast] at hd
      refine foldUndo_bound tpl tx.reverse N rm.scene ?_ hs d hd
      intro r hr
      exact hh tx htx r (List.mem_reverse.mp hr)
  · intro rm N hs hh d hd
    cases hlast : rm.redoStack.getLast? with
    | none =>
      simp only [redoM, hlast] at hd
      exact hs d hd
    | some tx =>
      have htx : tx ∈ rm.redoStack := getLastMem _ _ hlast
      simp only [redoM, hlast] at hd
      refine foldRedo_bound tpl tx N rm.scene ?_ hs d hd
      intro r hr
      exact hh tx htx r hr

/-- Witness for C1: undoing the destruction of `dstPerson` leaves the scene
with a drawable carrying the historical uuid 3, and every uuid stays below
the fresh counter 10. -/
theorem restore_preserves_uuid_witness :
    (∃ d, (restoreDrawableM tplTriv rmC1.scene dstPerson).drawables =
      rmC1.scene.drawables ++ [d] ∧ d.uuid = 3) ∧
    (∀ d ∈ (undoM tplTriv rmC1).scene.drawables, d.uuid < 10) := by
  have h := restore_preserves_uuid tplTriv
  refine ⟨h.1 rmC1.scene dstPerson (Or.inl rfl), ?_⟩
  refine h.2.1 rmC1 10 (by simp [rmC1]) ?_
  intro tx htx r hr
  simp only [rmC1, List.mem_singleton] at htx
  subst htx
  simp only [List.mem_singleton] at hr
  subst hr
  decide

/-- Counterexample to C4 as stated: the `modify` diff for the stroke-color
change `some "red" → none` (state A → state B), applied in `undo` then `redo`
direction to the drawable in state B, leaves the stroke color at `"red"`,
not at its state-B value `none` — `setStrokeColor` ignores `null`, so the
`redo` application of a null `to` value is a no-op. -/
theorem applyDiff_roundtrip_cex :
    captureDrawableState drawC4 = stateBC4 ∧
    diffStates stateAC4 stateBC4 = some diffC4 ∧
    stateBC4.attributes.strokeColor = none ∧
    (applyDiffM diffC4 DiffDir.redo (applyDiffM diffC4 DiffDir.undo drawC4)).strokeColor =
      some "red" := by
  refine ⟨rfl, by decide, rfl, by decide⟩

/-- A produced `{from, to}` pair records exactly the two compared values. -/
theorem mkFT_some {α : Type} [DecidableEq α] (o n : α) (ft : FromTo α)
    (h : mkFT o n = some ft) : ft.fromV = o ∧ ft.toV = n := by
  unfold mkFT at h
  split at h
  · cases h
  · cases h
    exact ⟨rfl, rfl⟩

/-- A successful lookup exhibits a member. -/
theorem mem_of_getAssoc? {κ α : Type} [DecidableEq κ] (l : List (κ × α)) (k : κ) (v : α)
    (h : getAssoc? l k = some v) : (k, v) ∈ l := by
  induction l with
  | nil => cases h
  | cons e rest ih =>
    obtain ⟨k', v'⟩ := e
    by_cases hk : k' = k
    · subst hk
      simp only [getAssoc?, if_pos rfl] at h
      cases h
      exact List.mem_cons_self _ _
    · simp only [getAssoc?, hk, if_false] at h
      exact List.mem_cons_of_mem _ (ih h)

/-- An absent key looks up to `none`. -/
theorem getAssoc?_eq_none_of_not_mem {κ α : Type} [DecidableEq κ] (l : List (κ × α)) (k : κ)
    (h : k ∉ l.map Prod.fst) : getAssoc? l k = none := by
  induction l with
  | nil => rfl
  | cons e rest ih =>
    obtain ⟨k', v'⟩ := e
    simp only [List.map_cons, List.mem_cons] at h
    push_neg at h
    simp only [getAssoc?]
    rw [if_neg (Ne.symm h.1)]
    exact ih h.2

/-- With unique keys, a member is what its key looks up to. -/
theorem getAssoc?_of_mem_nodup {κ α : Type} [DecidableEq κ] (l : List (κ × α))
    (hnd : (l.map Prod.fst).Nodup) (k : κ) (v : α) (h : (k, v) ∈ l) :
    getAssoc? l k = some v := by
  induction l with
  | nil => cases h
  | cons e rest ih =>
    obtain ⟨k', v'⟩ := e
    simp only [List.map_cons, List.nodup_cons] at hnd
    rcases List.mem_cons.mp h with h1 | h1
    · cases h1
      simp [getAssoc?]
    · have hk : k' ≠ k := by
        intro hh
        subst hh
        exact hnd.1 (List.mem_map_of_mem Prod.fst h1)
      simp only [getAssoc?, hk, if_false]
      exact ih hnd.2 h1

/-- Two dictionaries with the same (duplicate-free) key sequence and the same
lookups are equal. -/
theorem assoc_ext {κ α : Type} [DecidableEq κ] : ∀ (l1 l2 : List (κ × α)),
    l1.map Prod.fst = l2.map Prod.fst → (l1.map Prod.fst).Nodup →
    (∀ k, getAssoc? l1 k = getAssoc? l2 k) → l1 = l2 := by
  intro l1
  induction l1 with
  | nil =>
    intro l2 hk _ _
    cases l2 with
    | nil => rfl
    | cons e t2 => cases hk
  | cons e t1 ih =>
    intro l2 hk hnd hget
    obtain ⟨k, v⟩ := e
    cases l2 with
    | nil => cases hk
    | cons e2 t2 =>
      obtain ⟨k2, v2⟩ := e2
      simp only [List.map_cons, List.cons.injEq] at hk
      obtain ⟨hk0, hkt⟩ := hk
      subst hk0
      simp only [List.map_cons, List.nodup_cons] at hnd
      have hv : v = v2 := by
        have := hget k
        simp only [getAssoc?, if_pos rfl] at this
        exact Option.some_inj.mp this
      subst hv
      have hrest : ∀ k', getAssoc? t1 k' = getAssoc? t2 k' := by
        intro k'
        by_cases hk' : k' = k
        · subst hk'
          rw [getAssoc?_eq_none_of_not_mem t1 k' hnd.1,
            getAssoc?_eq_none_of_not_mem t2 k' (hkt ▸ hnd.1)]
        · have := hget k'
          simp only [getAssoc?, if_neg (Ne.symm hk')] at this
          exact this
      rw [ih t2 hkt hnd.2 hrest]

/-- `applyDiff` leaves every field it has no handler for unchanged. -/
theorem applyDiffM_passive (diff : DiffT) (dir : DiffDir) (x : MDrawable) :
    (applyDiffM diff dir x).uuid = x.uuid ∧ (applyDiffM diff dir x).name = x.name ∧
    (applyDiffM diff dir x).dtype = x.dtype ∧ (applyDiffM diff dir x).alpha = x.alpha ∧
    (applyDiffM diff dir x).layer = x.layer ∧ (applyDiffM diff dir x).format = x.format ∧
    (applyDiffM diff dir x).imagePath = x.imagePath ∧ (applyDiffM diff dir x).bbox = x.bbox := by
  simp only [applyDiffM]
  repeat' split
  all_goals exact ⟨rfl, rfl, rfl, rfl, rfl, rfl, rfl, rfl⟩

/-- The drawable's visibility after `applyDiff`. -/
theorem applyDiffM_visible (diff : DiffT) (dir : DiffDir) (x : MDrawable) :
    (applyDiffM diff dir x).visible =
      (match diff.attributes.visible with
       | some ft => ftVal ft dir
       | none => x.visible) := by
  simp only [applyDiffM]
  repeat' split
  all_goals rfl

/-- The drawable's stroke color after `applyDiff` (the setter ignores null). -/
theorem applyDiffM_strokeColor (diff : DiffT) (dir : DiffDir) (x : MDrawable) :
    (applyDiffM diff dir x).strokeColor =
      (match diff.attributes.strokeColor with
       | some ft =>
         match ftVal ft dir with
         | some c => some c
         | none => x.strokeColor
       | none => x.strokeColor) := by
  simp only [applyDiffM]
  repeat' split
  all_goals rfl

/-- The drawable's fill color after `applyDiff` (the setter ignores null). -/
theorem applyDiffM_fillColor (diff : DiffT) (dir : DiffDir) (x : MDrawable) :
    (applyDiffM diff dir x).fillColor =
      (match diff.attributes.fillColor with
       | some ft =>
         match ftVal ft dir with
         | some c => some c
         | none => x.fillColor
       | none => x.fillColor) := by
  simp only [applyDiffM]
  repeat' split
  all_goals rfl

/-- The drawable's children after `applyDiff`. -/
theorem applyDiffM_children (diff : DiffT) (dir : DiffDir) (x : MDrawable) :
    (applyDiffM diff dir x).children =
      diff.children.foldl (fun ch e => setAssocFirst ch e.1 (applyChildDiff e.2 dir))
        x.children := by
  simp only [applyDiffM]
  repeat' split
  all_goals rfl

/-- Applying per-name child updates keeps the key sequence. -/
theorem keys_foldUpd (dl : List (String × ChildDiff)) (dir : DiffDir) :
    ∀ chs : List (String × MChild),
    ((dl.foldl (fun ch e => setAssocFirst ch e.1 (applyChildDiff e.2 dir)) chs).map Prod.fst) =
      chs.map Prod.fst := by
  induction dl with
  | nil => intro chs; rfl
  | cons e dl' ih =>
    intro chs
    rw [List.foldl_cons, ih, keys_setAssocFirst]

/-- Lookup through a fold of per-name child updates with duplicate-free diff
names: the single matching update is applied, everything else is untouched. -/
theorem getAssoc?_foldUpd (dl : List (String × ChildDiff)) (dir : DiffDir)
    (hnd : (dl.map Prod.fst).Nodup) :
    ∀ (chs : List (String × MChild)) (nm : String),
    getAssoc? (dl.foldl (fun ch e => setAssocFirst ch e.1 (applyChildDiff e.2 dir)) chs) nm =
      (match getAssoc? dl nm with
       | some cd => (getAssoc? chs nm).map (applyChildDiff cd dir)
       | none => getAssoc? chs nm) := by
  induction dl with
  | nil =>
    intro chs nm
    rfl
  | cons e dl' ih =>
    intro chs nm
    obtain ⟨k, cd0⟩ := e
    simp only [List.map_cons, List.nodup_cons] at hnd
    rw [List.foldl_cons, ih hnd.2]
    by_cases hk : k = nm
    · subst hk
      have hnone : getAssoc? dl' k = none :=
        getAssoc?_eq_none_of_not_mem dl' k hnd.1
      have hhead : getAssoc? ((k, cd0) :: dl') k = some cd0 := by
        simp [getAssoc?]
      simp only [hnone, hhead, getAssoc?_setAssocFirst_self]
    · have hhead : getAssoc? ((k, cd0) :: dl') nm = getAssoc? dl' nm := by
        simp only [getAssoc?]
        rw [if_neg hk]
      simp only [hhead]
      rw [getAssoc?_setAssocFirst_ne _ _ _ _ (fun hh => hk hh.symm)]

/-- The child-diff list of `diffStates` uses a subsequence of the new state's
child names. -/
theorem dlKeys_sublist (A : DState) (chs : List (String × MChild)) :
    ((chs.filterMap (fun e =>
      match getAssoc? A.children e.1 with
      | some oc => (diffChild oc e.2).map (fun cd => (e.1, cd))
      | none => none)).map Prod.fst).Sublist (chs.map Prod.fst) := by
  induction chs with
  | nil => exact List.Sublist.refl _
  | cons e rest ih =>
    obtain ⟨nm, c⟩ := e
    rw [List.filterMap_cons]
    cases h1 : getAssoc? A.children nm with
    | none =>
      simp only [h1, List.map_cons]
      exact List.Sublist.cons _ ih
    | some oc =>
      cases h2 : diffChild oc c with
      | none =>
        simp only [h1, h2, Option.map_none', List.map_cons]
        exact List.Sublist.cons _ ih
      | some cd =>
        simp only [h1, h2, Option.map_some', List.map_cons]
        exact List.Sublist.cons₂ _ ih

/-- Every entry of the child-diff list comes from a child present in both
states, recording its diff. -/
theorem mem_childDiffList (A : DState) (chs : List (String × MChild)) (nm : String)
    (cd : ChildDiff)
    (h : (nm, cd) ∈ chs.filterMap (fun e =>
      match getAssoc? A.children e.1 with
      | some oc => (diffChild oc e.2).map (fun cd => (e.1, cd))
      | none => none)) :
    ∃ oc c, getAssoc? A.children nm = some oc ∧ (nm, c) ∈ chs ∧ diffChild oc c = some cd := by
  obtain ⟨e, he, hge⟩ := List.mem_filterMap.mp h
  obtain ⟨nm', c⟩ := e
  dsimp only at hge
  cases h1 : getAssoc? A.children nm' with
  | none =>
    rw [h1] at hge
    cases hge
  | some oc =>
    rw [h1] at hge
    dsimp only at hge
    cases h2 : diffChild oc c with
    | none =>
      rw [h2] at hge
      cases hge
    | some cd' =>
      rw [h2] at hge
      simp only [Option.map_some', Option.some_inj, Prod.mk.injEq] at hge
      obtain ⟨hnm, hcd⟩ := hge
      subst hnm
      subst hcd
      exact ⟨oc, c, h1, he, h2⟩

set_option maxHeartbeats 1000000 in
/-- Round trip of one child diff: applying the recorded `from` values then
the recorded `to` values returns the child to its new-state values exactly
(children fields are assigned directly, nulls included). -/
theorem diffChild_roundtrip (oc c : MChild) (cd : ChildDiff)
    (h : diffChild oc c = some cd) :
    applyChildDiff cd DiffDir.redo (applyChildDiff cd DiffDir.undo c) = c := by
  have hcd : cd = { position := mkFT oc.position c.position
                    visible := mkFT oc.visible c.visible
                    strokeColor := mkFT oc.strokeColor c.strokeColor
                    fillColor := mkFT oc.fillColor c.fillColor } := by
    simp only [diffChild] at h
    split at h
    · cases h
    · exact (Option.some_inj.mp h).symm
  subst hcd
  simp only [applyChildDiff, mkFT]
  split_ifs <;> rfl

/-- C4 (amended): applying a `modify` diff in `undo` then `redo` direction to
the drawable in state B restores every field mentioned in the diff to its
state-B value — and indeed the whole re-captured state equals B — provided
every drawable-level strokeColor/fillColor entry of the diff has a non-null
`to` value.  (Without that proviso the claim fails: the drawable-level color
setters ignore `null`, see the counterexample.) -/
theorem applyDiff_roundtrip_amended (A B : DState) (d : MDrawable) (diff : DiffT)
    (hnodup : (d.children.map Prod.fst).Nodup)
    (hcap : captureDrawableState d = B)
    (hdiff : diffStates A B = some diff)
    (hs : ∀ ft, diff.attributes.strokeColor = some ft → ft.toV ≠ none)
    (hf : ∀ ft, diff.attributes.fillColor = some ft → ft.toV ≠ none) :
    captureDrawableState (applyDiffM diff DiffDir.redo (applyDiffM diff DiffDir.undo d)) =
      B := by
  subst hcap
  simp only [diffStates] at hdiff
  split at hdiff
  · cases hdiff
  · have hd := Option.some_inj.mp hdiff
    have hDAv : diff.attributes.visible = mkFT A.attributes.visible d.visible := by
      rw [← hd]
      rfl
    have hDAs : diff.attributes.strokeColor =
        mkFT A.attributes.strokeColor d.strokeColor := by
      rw [← hd]
      rfl
    have hDAf : diff.attributes.fillColor = mkFT A.attributes.fillColor d.fillColor := by
      rw [← hd]
      rfl
    have hDC : diff.children = d.children.filterMap (fun e =>
        match getAssoc? A.children e.1 with
        | some oc => (diffChild oc e.2).map (fun cd => (e.1, cd))
        | none => none) := by
      rw [← hd]
      rfl
    have hvis : (applyDiffM diff DiffDir.redo (applyDiffM diff DiffDir.undo d)).visible =
        d.visible := by
      rw [applyDiffM_visible, applyDiffM_visible]
      cases hv : diff.attributes.visible with
      | none => rfl
      | some ft =>
        exact (mkFT_some _ _ ft (hDAv.symm.trans hv)).2
    have hstr : (applyDiffM diff DiffDir.redo (applyDiffM diff DiffDir.undo d)).strokeColor =
        d.strokeColor := by
      rw [applyDiffM_strokeColor, applyDiffM_strokeColor]
      cases hv : diff.attributes.strokeColor with
      | none => rfl
      | some ft =>
        have htoV : ft.toV = d.strokeColor := (mkFT_some _ _ ft (hDAs.symm.trans hv)).2
        obtain ⟨c, hc⟩ := Option.ne_none_iff_exists'.mp (hs ft hv)
        have hrv : ftVal ft DiffDir.redo = some c := hc
        simp only [hrv]
        rw [← hc]
        exact htoV
    have hfil : (applyDiffM diff DiffDir.redo (applyDiffM diff DiffDir.undo d)).fillColor =
        d.fillColor := by
      rw [applyDiffM_fillColor, applyDiffM_fillColor]
      cases hv : diff.attributes.fillColor with
      | none => rfl
      | some ft =>
        have htoV : ft.toV = d.fillColor := (mkFT_some _ _ ft (hDAf.symm.trans hv)).2
        obtain ⟨c, hc⟩ := Option.ne_none_iff_exists'.mp (hf ft hv)
        have hrv : ftVal ft DiffDir.redo = some c := hc
        simp only [hrv]
        rw [← hc]
        exact htoV
    have hdl_nodup : (diff.children.map Prod.fst).Nodup := by
      rw [hDC]
      exact List.Nodup.sublist (dlKeys_sublist A d.children) hnodup
    have hch : (applyDiffM diff DiffDir.redo (applyDiffM diff DiffDir.undo d)).children =
        d.children := by
      rw [applyDiffM_children, applyDiffM_children]
      refine assoc_ext _ _ ?_ ?_ ?_
      · rw [keys_foldUpd, keys_foldUpd]
      · rw [keys_foldUpd, keys_foldUpd]
        exact hnodup
      · intro nm
        rw [getAssoc?_foldUpd diff.children DiffDir.redo hdl_nodup,
          getAssoc?_foldUpd diff.children DiffDir.undo hdl_nodup]
        cases hnmdl : getAssoc? diff.children nm with
        | none => rfl
        | some cd =>
          have hmemdl := mem_of_getAssoc? _ _ _ hnmdl
          rw [hDC] at hmemdl
          obtain ⟨oc, c0, hoc, hmemc, hdc⟩ := mem_childDiffList A d.children nm cd hmemdl
          have hget : getAssoc? d.children nm = some c0 :=
            getAssoc?_of_mem_nodup _ hnodup _ _ hmemc
          rw [hget]
          simp only [Option.map_some']
          rw [diffChild_roundtrip oc c0 cd hdc]
    obtain ⟨hu1, hu2, hu3, hu4, hu5, hu6, hu7, hu8⟩ :=
      applyDiffM_passive diff DiffDir.undo d
    obtain ⟨hr1, hr2, hr3, hr4, hr5, hr6, hr7, hr8⟩ :=
      applyDiffM_passive diff DiffDir.redo (applyDiffM diff DiffDir.undo d)
    simp only [captureDrawableState, DState.mk.injEq, CArgs.mk.injEq, AttrsS.mk.injEq]
    refine ⟨hr3.trans hu3, hr1.trans hu1,
      ⟨hr2.trans hu2, hr8.trans hu8, ?_, ?_⟩,
      ⟨hvis, hr4.trans hu4, hfil, hstr, hr5.trans hu5⟩, hch⟩
    · rw [hr3.trans hu3, hr6.trans hu6]
    · rw [hr3.trans hu3, hr7.trans hu7]

/-- Witness for the amended C4 on a concrete stroke-color change
`"red" → "blue"` (non-null `to` value). -/
theorem applyDiff_roundtrip_amended_witness :
    captureDrawableState
      (applyDiffM diffC4b DiffDir.redo (applyDiffM diffC4b DiffDir.undo drawC4b)) =
      stateBC4b := by
  refine applyDiff_roundtrip_amended stateAC4b stateBC4b drawC4b diffC4b ?_ rfl ?_ ?_ ?_
  · simp [drawC4b, drawC4]
  · decide
  · intro ft hft
    simp [diffC4b] at hft
    subst hft
    decide
  · intro ft hft
    simp [diffC4b] at hft
